import Mathlib

/-!
Verification of the uzlang interpreter (lexer, parser, tree-walking
interpreter) against its natural-language specification.  The Rust source
(src/uzlang/src/{lexer,parser,interpreter}.rs) is shallowly embedded:
pure functions become Lean functions, the stateful interpreter becomes
explicit state passing with a fuel parameter, machine integers (i64)
become Int with explicit wrapping, and fallible host behaviour (Rust
panics) is a distinct outcome.  Host facilities that are not part of the
repository (URL parsing by reqwest, DNS resolution, the HTTP client,
stdin) are oracles supplied as parameters.
-/

namespace Uzlang

/-! ## Token model (lexer.rs, enum Token) -/

inductive Token where
  | Agar
  | Toki
  | Yoz
  | Takrorla
  | Sora
  | Funksiya
  | Qaytar
  | Uchun
  | Ichida
  | And
  | Or
  | Not
  | LBrace
  | RBrace
  | LParen
  | RParen
  | LBracket
  | RBracket
  | Comma
  | Identifier (s : String)
  | Number (n : Int)
  | StringLiteral (s : String)
  | Operator (s : String)
  | EOF
deriving DecidableEq, Repr

/-! ## Lexer (lexer.rs, impl Lexer)

The Rust lexer walks a `Vec<char>` with a cursor; we walk the remaining
`List Char`.  The top-level scan loop `tokenize` consumes at least one
character per iteration, so a fuel equal to the input length is enough;
the helpers for strings, numbers and identifiers are structurally
recursive on the remaining characters. -/

/-- lexer.rs `read_string`, after the opening quote has been skipped.
Returns the processed literal and the characters after the closing
quote (an unterminated literal ends at EOF). -/
def read_string : List Char → String × List Char
  | [] => ("", [])
  | '"' :: cs => ("", cs)
  | '\\' :: [] => ("\\", [])
  | '\\' :: c :: cs =>
      let e : String :=
        if c = 'n' then "\n"
        else if c = 'r' then "\r"
        else if c = 't' then "\t"
        else if c = '"' then "\""
        else if c = '\\' then "\\"
        else String.mk ['\\', c]
      let r := read_string cs
      (e ++ r.1, r.2)
  | c :: cs =>
      let r := read_string cs
      (String.mk [c] ++ r.1, r.2)

/-- lexer.rs `read_number`: the longest run of ASCII digits. -/
def read_digits : List Char → List Char × List Char
  | [] => ([], [])
  | c :: cs =>
      if c.isDigit then
        let r := read_digits cs
        (c :: r.1, r.2)
      else ([], c :: cs)

def digitsToNat (ds : List Char) : Nat :=
  ds.foldl (fun acc c => acc * 10 + (c.toNat - '0'.toNat)) 0

/-- Rust `s.parse::<i64>().unwrap_or(0)` on a digit run: overflow of the
signed 64-bit range yields 0. -/
def numValue (ds : List Char) : Int :=
  let n := digitsToNat ds
  if n ≤ 2 ^ 63 - 1 then (n : Int) else 0

/-- lexer.rs `read_identifier`: the longest run of `[A-Za-z0-9_']`. -/
def read_ident_chars : List Char → List Char × List Char
  | [] => ([], [])
  | c :: cs =>
      if c.isAlphanum ∨ c = '_' ∨ c = '\'' then
        let r := read_ident_chars cs
        (c :: r.1, r.2)
      else ([], c :: cs)

/-- The keyword `so'ra`, written as characters because of the apostrophe. -/
def soraString : String := String.mk ['s', 'o', '\'', 'r', 'a']

/-- lexer.rs `read_identifier`: keyword table lookup after the run. -/
def keywordToken (s : String) : Token :=
  if s = "agar" then .Agar
  else if s = "toki" then .Toki
  else if s = "yoz" then .Yoz
  else if s = "takrorla" then .Takrorla
  else if s = soraString then .Sora
  else if s = "funksiya" then .Funksiya
  else if s = "qaytar" then .Qaytar
  else if s = "uchun" then .Uchun
  else if s = "ichida" then .Ichida
  else .Identifier s

/-- lexer.rs `read_operator`: `c` is the character at the cursor, `cs`
what follows it.  Returns the token and the remaining characters. -/
def read_operator (c : Char) (cs : List Char) : Token × List Char :=
  match cs with
  | next :: rest =>
      if c = '&' ∧ next = '&' then (.And, rest)
      else if c = '|' ∧ next = '|' then (.Or, rest)
      else if next = '=' then
        (if String.mk [c, next] = "!" then .Not else .Operator (String.mk [c, next]), rest)
      else (if String.mk [c] = "!" then .Not else .Operator (String.mk [c]), cs)
  | [] => (if String.mk [c] = "!" then .Not else .Operator (String.mk [c]), [])

/-- lexer.rs comment skipping: drop characters up to (not including) the
next newline. -/
def skip_comment : List Char → List Char
  | [] => []
  | c :: cs => if c = '\n' then c :: cs else skip_comment cs

/-- One iteration of the lexer.rs `tokenize` scan loop at character `c`
followed by `cs`: the token pushed this iteration (if any) and the
remaining characters. -/
def tok_step (c : Char) (cs : List Char) : Option Token × List Char :=
  if c = ' ' ∨ c = '\t' ∨ c = '\r' ∨ c = '\n' then (none, cs)
  else if c = '"' then
    let r := read_string cs
    (some (.StringLiteral r.1), r.2)
  else if c.isDigit then
    let r := read_digits (c :: cs)
    (some (.Number (numValue r.1)), r.2)
  else if c.isAlpha ∨ c = '_' then
    let r := read_ident_chars (c :: cs)
    (some (keywordToken (String.mk r.1)), r.2)
  else if c = '/' then
    if cs.head? = some '/' then (none, skip_comment (c :: cs))
    else
      let r := read_operator c cs
      (some r.1, r.2)
  else if c = '=' ∨ c = '!' ∨ c = '>' ∨ c = '<' ∨ c = '+' ∨ c = '-' ∨ c = '*'
          ∨ c = '&' ∨ c = '|' then
    let r := read_operator c cs
    (some r.1, r.2)
  else if c = '{' then (some .LBrace, cs)
  else if c = '}' then (some .RBrace, cs)
  else if c = '(' then (some .LParen, cs)
  else if c = ')' then (some .RParen, cs)
  else if c = '[' then (some .LBracket, cs)
  else if c = ']' then (some .RBracket, cs)
  else if c = ',' then (some .Comma, cs)
  else (none, cs)

/-- lexer.rs `tokenize` main loop, one fuel unit per iteration.  Each
iteration consumes at least one character, so fuel = input length covers
any input; the EOF token is appended by `tokenize` below. -/
def tokGo : Nat → List Char → List Token
  | 0, _ => []
  | _ + 1, [] => []
  | fuel + 1, c :: cs =>
      match tok_step c cs with
      | (some t, rest) => t :: tokGo fuel rest
      | (none, rest) => tokGo fuel rest

/-- lexer.rs `tokenize`: scan the whole input and append `EOF`. -/
def tokenize (s : String) : List Token :=
  tokGo s.toList.length s.toList ++ [Token.EOF]

/-! ## AST (parser.rs, enum Expr / enum Stmt) -/

mutual
inductive Expr where
  | Number (n : Int)
  | StringLiteral (s : String)
  | Identifier (s : String)
  | BinaryOp (l : Expr) (op : String) (r : Expr)
  | UnaryOp (op : String) (e : Expr)
  | Call (name : String) (args : List Expr)
  | Input
  | Array (elems : List Expr)
  | Index (target : Expr) (idx : Expr)
deriving Repr

inductive Stmt where
  | Print (e : Expr)
  | If (cond : Expr) (body : List Stmt)
  | Loop (cond : Expr) (body : List Stmt)
  | For (var : String) (coll : Expr) (body : List Stmt)
  | Assign (name : String) (e : Expr)
  | AssignIndex (name : String) (idx : Expr) (value : Expr)
  | Function (name : String) (params : List String) (body : List Stmt)
  | Return (e : Expr)
  | Expr (e : Expr)
deriving Repr
end

/-! ## Parser (parser.rs, impl Parser)

The Rust parser keeps a `Vec<Token>` and a cursor `pos`; `peek` reads
`tokens[pos]` (EOF past the end), `advance` bumps the cursor when it is
in range and returns the token just consumed (EOF when the cursor never
moved).  Parse errors are recorded as tags on the error channel.  The
mutually recursive productions take a fuel parameter; every recursive
call passes the predecessor, so plain induction on fuel applies. -/

inductive PErr where
  | unexpectedToken
  | blockStart
  | blockEnd
  | forFormat
  | paramName
  | funcDecl
  | assignTargetIndex
  | assignTarget
  | rbracketExpected
  | rparenExpected
  | callNonIdent
deriving DecidableEq, Repr

structure PSt where
  tokens : List Token
  pos : Nat
  errs : List PErr
deriving Repr

def PSt.peek (p : PSt) : Token := p.tokens.getD p.pos .EOF

def PSt.advance (p : PSt) : Token × PSt :=
  let p' := if p.pos < p.tokens.length then { p with pos := p.pos + 1 } else p
  (if p'.pos > 0 then p'.tokens.getD (p'.pos - 1) .EOF else .EOF, p')

def PSt.report (p : PSt) (e : PErr) : PSt := { p with errs := p.errs ++ [e] }

/-- parser.rs comparison sets for the precedence levels. -/
def comparisonOps : List String := ["==", "!=", "<", ">", "<=", ">="]

mutual

/-- parser.rs `parse_stmt`.  Note: the match has no `Token::Toki` arm in
the source; `toki` falls into the default expression branch. -/
def parse_stmt : Nat → PSt → Option Stmt × PSt
  | 0, p => (none, p)
  | fuel + 1, p =>
      match p.peek with
      | .Yoz =>
          let p := (p.advance).2
          match parse_expr fuel p with
          | (some e, p) => (some (.Print e), p)
          | (none, p) => (none, p)
      | .Agar =>
          let p := (p.advance).2
          match parse_expr fuel p with
          | (some c, p) =>
              match parse_block fuel p with
              | (some b, p) => (some (.If c b), p)
              | (none, p) => (none, p)
          | (none, p) => (none, p)
      | .Takrorla =>
          let p := (p.advance).2
          match parse_expr fuel p with
          | (some c, p) =>
              match parse_block fuel p with
              | (some b, p) => (some (.Loop c b), p)
              | (none, p) => (none, p)
          | (none, p) => (none, p)
      | .Uchun =>
          let p := (p.advance).2
          match p.advance with
          | (.Identifier var, p) =>
              match p.peek with
              | .Ichida =>
                  let p := (p.advance).2
                  match parse_expr fuel p with
                  | (some coll, p) =>
                      match parse_block fuel p with
                      | (some b, p) => (some (.For var coll b), p)
                      | (none, p) => (none, p)
                  | (none, p) => (none, p)
              | _ => (none, p.report .forFormat)
          | (_, p) => (none, p.report .forFormat)
      | .Funksiya =>
          let p := (p.advance).2
          match p.advance with
          | (.Identifier name, p) =>
              match p.advance with
              | (.LParen, p) =>
                  match
                    (if p.peek = .RParen then (some [], p)
                     else parse_params fuel p) with
                  | (some params, p) =>
                      match p.advance with
                      | (.RParen, p) =>
                          match parse_block fuel p with
                          | (some b, p) => (some (.Function name params b), p)
                          | (none, p) => (none, p)
                      | (_, p) => (none, p.report .funcDecl)
                  | (none, p) => (none, p)
              | (_, p) => (none, p.report .funcDecl)
          | (_, p) => (none, p.report .funcDecl)
      | .Qaytar =>
          let p := (p.advance).2
          match parse_expr fuel p with
          | (some e, p) => (some (.Return e), p)
          | (none, p) => (none, p)
      | _ =>
          match parse_expr fuel p with
          | (some e, p) =>
              match p.peek with
              | .Operator op =>
                  if op = "=" then
                    let p := (p.advance).2
                    match parse_expr fuel p with
                    | (some value, p) =>
                        match e with
                        | .Identifier name => (some (.Assign name value), p)
                        | .Index target index =>
                            match target with
                            | .Identifier name => (some (.AssignIndex name index value), p)
                            | _ => (none, p.report .assignTargetIndex)
                        | _ => (none, p.report .assignTarget)
                    | (none, p) => (none, p)
                  else (some (.Expr e), p)
              | _ => (some (.Expr e), p)
          | (none, p) => (none, p)

/-- parser.rs parameter list inside `funksiya` (the `loop` over
identifiers separated by commas). -/
def parse_params : Nat → PSt → Option (List String) × PSt
  | 0, p => (none, p)
  | fuel + 1, p =>
      match p.advance with
      | (.Identifier param, p) =>
          if p.peek = .Comma then
            let p := (p.advance).2
            match parse_params fuel p with
            | (some ps, p) => (some (param :: ps), p)
            | (none, p) => (none, p)
          else (some [param], p)
      | (_, p) => (none, p.report .paramName)

/-- parser.rs `parse_block`. -/
def parse_block : Nat → PSt → Option (List Stmt) × PSt
  | 0, p => (none, p)
  | fuel + 1, p =>
      match p.peek with
      | .LBrace =>
          let p := (p.advance).2
          match block_stmts fuel p with
          | (stmts, p) =>
              match p.peek with
              | .RBrace => (some stmts, (p.advance).2)
              | _ => (none, p.report .blockEnd)
      | _ => (none, p.report .blockStart)

/-- parser.rs `parse_block` statement loop (until `}` or EOF; on a failed
statement one token is consumed). -/
def block_stmts : Nat → PSt → List Stmt × PSt
  | 0, p => ([], p)
  | fuel + 1, p =>
      if p.peek = .RBrace ∨ p.peek = .EOF then ([], p)
      else
        match parse_stmt fuel p with
        | (some s, p) =>
            let r := block_stmts fuel p
            (s :: r.1, r.2)
        | (none, p) => block_stmts fuel ((p.advance).2)

/-- parser.rs `parse_expr` = `parse_logical_or`. -/
def parse_expr : Nat → PSt → Option Expr × PSt
  | 0, p => (none, p)
  | fuel + 1, p => parse_logical_or fuel p

def parse_logical_or : Nat → PSt → Option Expr × PSt
  | 0, p => (none, p)
  | fuel + 1, p =>
      match parse_logical_and fuel p with
      | (some l, p) => or_loop fuel l p
      | (none, p) => (none, p)

def or_loop : Nat → Expr → PSt → Option Expr × PSt
  | 0, _, p => (none, p)
  | fuel + 1, l, p =>
      match p.peek with
      | .Or =>
          let p := (p.advance).2
          match parse_logical_and fuel p with
          | (some r, p) => or_loop fuel (.BinaryOp l "||" r) p
          | (none, p) => (none, p)
      | _ => (some l, p)

def parse_logical_and : Nat → PSt → Option Expr × PSt
  | 0, p => (none, p)
  | fuel + 1, p =>
      match parse_comparison fuel p with
      | (some l, p) => and_loop fuel l p
      | (none, p) => (none, p)

def and_loop : Nat → Expr → PSt → Option Expr × PSt
  | 0, _, p => (none, p)
  | fuel + 1, l, p =>
      match p.peek with
      | .And =>
          let p := (p.advance).2
          match parse_comparison fuel p with
          | (some r, p) => and_loop fuel (.BinaryOp l "&&" r) p
          | (none, p) => (none, p)
      | _ => (some l, p)

def parse_comparison : Nat → PSt → Option Expr × PSt
  | 0, p => (none, p)
  | fuel + 1, p =>
      match parse_term fuel p with
      | (some l, p) => comparison_loop fuel l p
      | (none, p) => (none, p)

def comparison_loop : Nat → Expr → PSt → Option Expr × PSt
  | 0, _, p => (none, p)
  | fuel + 1, l, p =>
      match p.peek with
      | .Operator op =>
          if op ∈ comparisonOps then
            let p := (p.advance).2
            match parse_term fuel p with
            | (some r, p) => comparison_loop fuel (.BinaryOp l op r) p
            | (none, p) => (none, p)
          else (some l, p)
      | _ => (some l, p)

def parse_term : Nat → PSt → Option Expr × PSt
  | 0, p => (none, p)
  | fuel + 1, p =>
      match parse_factor fuel p with
      | (some l, p) => term_loop fuel l p
      | (none, p) => (none, p)

def term_loop : Nat → Expr → PSt → Option Expr × PSt
  | 0, _, p => (none, p)
  | fuel + 1, l, p =>
      match p.peek with
      | .Operator op =>
          if op = "+" ∨ op = "-" then
            let p := (p.advance).2
            match parse_factor fuel p with
            | (some r, p) => term_loop fuel (.BinaryOp l op r) p
            | (none, p) => (none, p)
          else (some l, p)
      | _ => (some l, p)

def parse_factor : Nat → PSt → Option Expr × PSt
  | 0, p => (none, p)
  | fuel + 1, p =>
      match parse_unary fuel p with
      | (some l, p) => factor_loop fuel l p
      | (none, p) => (none, p)

def factor_loop : Nat → Expr → PSt → Option Expr × PSt
  | 0, _, p => (none, p)
  | fuel + 1, l, p =>
      match p.peek with
      | .Operator op =>
          if op = "*" ∨ op = "/" then
            let p := (p.advance).2
            match parse_unary fuel p with
            | (some r, p) => factor_loop fuel (.BinaryOp l op r) p
            | (none, p) => (none, p)
          else (some l, p)
      | _ => (some l, p)

def parse_unary : Nat → PSt → Option Expr × PSt
  | 0, p => (none, p)
  | fuel + 1, p =>
      match p.peek with
      | .Not =>
          let p := (p.advance).2
          match parse_unary fuel p with
          | (some r, p) => (some (.UnaryOp "!" r), p)
          | (none, p) => (none, p)
      | _ => parse_postfix fuel p

def parse_postfix : Nat → PSt → Option Expr × PSt
  | 0, p => (none, p)
  | fuel + 1, p =>
      match parse_primary fuel p with
      | (some l, p) => postfix_loop fuel l p
      | (none, p) => (none, p)

def postfix_loop : Nat → Expr → PSt → Option Expr × PSt
  | 0, _, p => (none, p)
  | fuel + 1, l, p =>
      match p.peek with
      | .LBracket =>
          let p := (p.advance).2
          match parse_expr fuel p with
          | (some index, p) =>
              match p.advance with
              | (.RBracket, p) => postfix_loop fuel (.Index l index) p
              | (_, p) => (none, p.report .rbracketExpected)
          | (none, p) => (none, p)
      | .LParen =>
          match l with
          | .Identifier name =>
              let p := (p.advance).2
              match
                (if p.peek = .RParen then (some [], p)
                 else call_args fuel p) with
              | (some args, p) =>
                  match p.advance with
                  | (.RParen, p) => postfix_loop fuel (.Call name args) p
                  | (_, p) => (none, p.report .rparenExpected)
              | (none, p) => (none, p)
          | _ => (none, p.report .callNonIdent)
      | _ => (some l, p)

/-- parser.rs call-argument loop.  A failed argument parse breaks out of
the loop with what has been collected so far. -/
def call_args : Nat → PSt → Option (List Expr) × PSt
  | 0, p => (none, p)
  | fuel + 1, p =>
      match parse_expr fuel p with
      | (some arg, p) =>
          if p.peek = .Comma then
            let p := (p.advance).2
            match call_args fuel p with
            | (some args, p) => (some (arg :: args), p)
            | (none, p) => (none, p)
          else (some [arg], p)
      | (none, p) => (some [], p)

/-- parser.rs array-literal element loop (propagates element failure). -/
def array_elems : Nat → PSt → Option (List Expr) × PSt
  | 0, p => (none, p)
  | fuel + 1, p =>
      match parse_expr fuel p with
      | (some e, p) =>
          if p.peek = .Comma then
            let p := (p.advance).2
            match array_elems fuel p with
            | (some es, p) => (some (e :: es), p)
            | (none, p) => (none, p)
          else (some [e], p)
      | (none, p) => (none, p)

def parse_primary : Nat → PSt → Option Expr × PSt
  | 0, p => (none, p)
  | fuel + 1, p =>
      match p.peek with
      | .Number n => (some (.Number n), (p.advance).2)
      | .StringLiteral s => (some (.StringLiteral s), (p.advance).2)
      | .Identifier s => (some (.Identifier s), (p.advance).2)
      | .Sora => (some .Input, (p.advance).2)
      | .LBracket =>
          let p := (p.advance).2
          match
            (if p.peek = .RBracket then (some [], p)
             else array_elems fuel p) with
          | (some elems, p) =>
              match p.advance with
              | (.RBracket, p) => (some (.Array elems), p)
              | (_, p) => (none, p.report .rbracketExpected)
          | (none, p) => (none, p)
      | .LParen =>
          let p := (p.advance).2
          match parse_expr fuel p with
          | (some e, p) =>
              match p.advance with
              | (.RParen, p) => (some e, p)
              | (_, p) => (none, p.report .rparenExpected)
          | (none, p) => (none, p)
      | _ => (none, p)

end

/-- parser.rs `parse` top-level loop: statements until EOF; a failed
statement consumes one token and reports an error. -/
def parse_go : Nat → PSt → List Stmt × PSt
  | 0, p => ([], p)
  | fuel + 1, p =>
      if p.peek = .EOF then ([], p)
      else
        match parse_stmt fuel p with
        | (some s, p) =>
            let r := parse_go fuel p
            (s :: r.1, r.2)
        | (none, p) =>
            let p := ((p.advance).2).report .unexpectedToken
            parse_go fuel p

/-- parser.rs `Parser::new` + `parse` over a token list, with fuel ample
for the list. -/
def parse (tokens : List Token) : List Stmt × PSt :=
  parse_go (tokens.length * 50 + 50) { tokens := tokens, pos := 0, errs := [] }

/-! ## IP and URL safety (interpreter.rs, is_safe_ip / is_safe_url)

IPv4 addresses are four octets, IPv6 addresses eight 16-bit segments,
modelled as `Nat` fields (the range facts 0..256 / 0..65536 are not
needed by the checks, which are equalities and bit masks). -/

structure Ipv4Addr where
  o0 : Nat
  o1 : Nat
  o2 : Nat
  o3 : Nat
deriving DecidableEq, Repr

structure Ipv6Addr where
  s0 : Nat
  s1 : Nat
  s2 : Nat
  s3 : Nat
  s4 : Nat
  s5 : Nat
  s6 : Nat
  s7 : Nat
deriving DecidableEq, Repr

inductive IpAddr where
  | V4 (ip : Ipv4Addr)
  | V6 (ip : Ipv6Addr)
deriving DecidableEq, Repr

/-- Rust `Ipv6Addr::is_loopback`: the address `::1`. -/
def Ipv6Addr.is_loopback (ip : Ipv6Addr) : Bool :=
  ip.s0 = 0 ∧ ip.s1 = 0 ∧ ip.s2 = 0 ∧ ip.s3 = 0 ∧ ip.s4 = 0 ∧ ip.s5 = 0
    ∧ ip.s6 = 0 ∧ ip.s7 = 1

/-- Rust `Ipv6Addr::is_unspecified`: the address `::`. -/
def Ipv6Addr.is_unspecified (ip : Ipv6Addr) : Bool :=
  ip.s0 = 0 ∧ ip.s1 = 0 ∧ ip.s2 = 0 ∧ ip.s3 = 0 ∧ ip.s4 = 0 ∧ ip.s5 = 0
    ∧ ip.s6 = 0 ∧ ip.s7 = 0

/-- Rust `Ipv6Addr::to_ipv4`: converts IPv4-compatible (`::a.b.c.d`) and
IPv4-mapped (`::ffff:a.b.c.d`) addresses — the first six segments are
`0,0,0,0,0,0` or `0,0,0,0,0,0xffff`; the last two segments split into
the four octets big-endian. -/
def Ipv6Addr.to_ipv4 (ip : Ipv6Addr) : Option Ipv4Addr :=
  if ip.s0 = 0 ∧ ip.s1 = 0 ∧ ip.s2 = 0 ∧ ip.s3 = 0 ∧ ip.s4 = 0
      ∧ (ip.s5 = 0 ∨ ip.s5 = 0xffff) then
    some ⟨ip.s6 / 256, ip.s6 % 256, ip.s7 / 256, ip.s7 % 256⟩
  else none

/-- interpreter.rs `is_safe_ip`, IPv4 arm: the chain of range checks on
the octets. -/
def is_safe_ipv4 (ip : Ipv4Addr) : Bool :=
  if ip.o0 = 127 then false
  else if ip.o0 = 10 then false
  else if ip.o0 = 172 ∧ 16 ≤ ip.o1 ∧ ip.o1 ≤ 31 then false
  else if ip.o0 = 192 ∧ ip.o1 = 168 then false
  else if ip.o0 = 169 ∧ ip.o1 = 254 then false
  else if ip.o0 = 0 then false
  else if ip.o0 = 100 ∧ 64 ≤ ip.o1 ∧ ip.o1 ≤ 127 then false
  else if ip.o0 = 255 ∧ ip.o1 = 255 ∧ ip.o2 = 255 ∧ ip.o3 = 255 then false
  else true

/-- interpreter.rs `is_safe_ip`, IPv6 arm; the recursive call on the
embedded IPv4 of `to_ipv4` becomes a call to the IPv4 arm. -/
def is_safe_ipv6 (ip : Ipv6Addr) : Bool :=
  if ip.is_loopback then false
  else if ip.is_unspecified then false
  else if ip.s0 &&& 0xfe00 = 0xfc00 then false
  else if ip.s0 &&& 0xffc0 = 0xfe80 then false
  else
    match ip.to_ipv4 with
    | some v4 => is_safe_ipv4 v4
    | none => true

/-- interpreter.rs `is_safe_ip`. -/
def is_safe_ip : IpAddr → Bool
  | .V4 ip => is_safe_ipv4 ip
  | .V6 ip => is_safe_ipv6 ip

/-- The outcome of `reqwest::Url::parse` + accessors, supplied by an
oracle: scheme, `host_str()` and `port_or_known_default()`. -/
structure Url where
  scheme : String
  host : Option String
  port : Option Nat
deriving DecidableEq, Repr

/-- Rust `str::starts_with` on strings, as a character-list prefix test
(the byte-level core implementation does not reduce in proofs). -/
def str_starts_with (s pre : String) : Bool :=
  go s.toList pre.toList
where
  go : List Char → List Char → Bool
    | _, [] => true
    | [], _ :: _ => false
    | c :: cs, p :: ps => c = p && go cs ps

/-- interpreter.rs `is_safe_url`, with URL parsing and DNS resolution
(`to_socket_addrs`) as oracles.  Mirrors the source control flow: when
resolution returns an error the `if let Ok` block is skipped and the
function falls through to `return true`. -/
def is_safe_url (parseUrl : String → Option Url)
    (resolve : String → Option (List IpAddr)) (url_str : String) : Bool :=
  match parseUrl url_str with
  | some url =>
      if url.scheme ≠ "http" ∧ url.scheme ≠ "https" then false
      else
        match url.host with
        | some host =>
            if host = "localhost" ∨ host = "::1" ∨ host = "[::1]" then false
            else if str_starts_with host "127." then false
            else
              let port := url.port.getD 80
              let addr_str := host ++ ":" ++ toString port
              match resolve addr_str with
              | some addrs => addrs.all is_safe_ip
              | none => true
        | none => false
  | none => false

/-! ## Value model (interpreter.rs, enum Value)

Rust arrays are `Rc<Vec<Value>>` with `Rc::make_mut` before in-place
mutation (copy-on-write), so the observable semantics is that of pure
tree values: a write through one binding never changes the value seen
through another.  We embed values as pure trees. -/

inductive Value where
  | number (n : Int)
  | str (s : String)
  | bool (b : Bool)
  | array (elems : List Value)
deriving Repr

mutual
def Value.beq : Value → Value → Bool
  | .number a, .number b => a = b
  | .str a, .str b => a = b
  | .bool a, .bool b => a = b
  | .array a, .array b => Value.beqList a b
  | _, _ => false
def Value.beqList : List Value → List Value → Bool
  | [], [] => true
  | a :: xs, b :: ys => Value.beq a b && Value.beqList xs ys
  | _, _ => false
end

/-! interpreter.rs `impl Display for Value`. -/
mutual
def Value.display : Value → String
  | .number n => toString n
  | .str s => s
  | .bool b => if b then "true" else "false"
  | .array elems => "[" ++ String.intercalate ", " (Value.displayList elems) ++ "]"
def Value.displayList : List Value → List String
  | [] => []
  | v :: vs => v.display :: Value.displayList vs
end

/-- interpreter.rs `is_truthy`. -/
def is_truthy : Value → Bool
  | .bool b => b
  | .number n => n ≠ 0
  | _ => false

/-! ## Binary dispatch (interpreter.rs `evaluate_binary`)

Rust i64 arithmetic: `+ - *` wrap around 2^64 (release overflow
semantics), `/` truncates toward zero and PANICS when the divisor is
zero or on the overflowing `i64::MIN / -1`.  The panic is modelled as
`none`; every other path yields `some` value. -/

def i64min : Int := -(2 ^ 63)

def wrap64 (n : Int) : Int := (n + 2 ^ 63) % 2 ^ 64 - 2 ^ 63

def evaluate_binary (l : Value) (op : String) (r : Value) : Option Value :=
  match l, r with
  | .number l, .number r =>
      if op = "+" then some (.number (wrap64 (l + r)))
      else if op = "-" then some (.number (wrap64 (l - r)))
      else if op = "*" then some (.number (wrap64 (l * r)))
      else if op = "/" then
        if r = 0 ∨ (l = i64min ∧ r = -1) then none
        else some (.number (Int.tdiv l r))
      else if op = "==" then some (.bool (l = r))
      else if op = "!=" then some (.bool (l ≠ r))
      else if op = ">" then some (.bool (r < l))
      else if op = "<" then some (.bool (l < r))
      else if op = ">=" then some (.bool (r ≤ l))
      else if op = "<=" then some (.bool (l ≤ r))
      else some (.bool false)
  | .str l, .str r =>
      if op = "+" then some (.str (l ++ r))
      else if op = "==" then some (.bool (l = r))
      else if op = "!=" then some (.bool (l ≠ r))
      else some (.bool false)
  | .str l, .number r =>
      if op = "+" then some (.str (l ++ toString r)) else some (.bool false)
  | .number l, .str r =>
      if op = "+" then some (.str (toString l ++ r)) else some (.bool false)
  | _, _ => some (.bool false)

/-! ## Interpreter state -/

/-- Runtime error-channel tags, one per `eprintln!` site in
interpreter.rs (the Uzbek text is not modelled). -/
inductive ErrTag where
  | forNeedsArray
  | indexOutOfRange (i : Int)
  | indexNotNumber
  | notAnArray (name : String)
  | varNotFound (name : String)
  | indexTargetNotArray
  | qoshFirstNotArray
  | unsafeUrl (url : String)
  | netError
  | readError
  | funcNotFound (name : String)
deriving DecidableEq, Repr

inductive HttpResp where
  | netErr
  | readErr
  | body (s : String)
deriving DecidableEq, Repr

structure HttpReq where
  isPost : Bool
  url : String
  payload : String
deriving DecidableEq, Repr

/-- Host oracles: reqwest URL parsing, DNS resolution, and the HTTP
client responses. -/
structure Cfg where
  parseUrl : String → Option Url
  resolve : String → Option (List IpAddr)
  httpGet : String → HttpResp
  httpPost : String → String → HttpResp

abbrev ScopeT := List (String × Value)

/-- Interpreter state: the scope stack (HEAD is the innermost scope,
i.e. the last element of the Rust `Vec`), the function table, and the
observable channels (stdout lines, stderr tags, remaining stdin lines,
the log of HTTP requests actually sent). -/
structure St where
  env_stack : List ScopeT
  functions : List (String × (List String × List Stmt))
  output : List String
  errors : List ErrTag
  stdin_q : List String
  reqs : List HttpReq

def report (st : St) (t : ErrTag) : St := { st with errors := st.errors ++ [t] }

/-- HashMap lookup on an association list (keys are unique because every
write goes through `alInsert`). -/
def alookup {α : Type} (nm : String) : List (String × α) → Option α
  | [] => none
  | (k, v) :: rest => if k = nm then some v else alookup nm rest

/-- HashMap insert: overwrite the existing entry or append a new one. -/
def alInsert {α : Type} (nm : String) (v : α) : List (String × α) → List (String × α)
  | [] => [(nm, v)]
  | (k, w) :: rest => if k = nm then (nm, v) :: rest else (k, w) :: alInsert nm v rest

/-- interpreter.rs `set_variable` scope walk (innermost outward):
`some` updated stack when an existing binding was overwritten. -/
def set_in_stack (nm : String) (v : Value) : List ScopeT → Option (List ScopeT)
  | [] => none
  | sc :: rest =>
      if (alookup nm sc).isSome then some (alInsert nm v sc :: rest)
      else
        match set_in_stack nm v rest with
        | some rest' => some (sc :: rest')
        | none => none

/-- interpreter.rs `set_variable`. -/
def set_variable (st : St) (nm : String) (v : Value) : St :=
  match set_in_stack nm v st.env_stack with
  | some stk => { st with env_stack := stk }
  | none =>
      match st.env_stack with
      | sc :: rest => { st with env_stack := alInsert nm v sc :: rest }
      | [] => st

def lookup_stack (nm : String) : List ScopeT → Option Value
  | [] => none
  | sc :: rest =>
      match alookup nm sc with
      | some v => some v
      | none => lookup_stack nm rest

/-- interpreter.rs `get_variable`: innermost binding, else `Number(0)`. -/
def get_variable (st : St) (nm : String) : Value :=
  (lookup_stack nm st.env_stack).getD (.number 0)

/-- interpreter.rs `Stmt::AssignIndex` scope walk: find the innermost
scope binding `nm` and mutate (`Rc::make_mut` then `elements[idx] = v`,
observably a fresh array value), or report the matching error.  Returns
the new stack and the reported tag, if any. -/
def assign_index_scopes (nm : String) (iv vv : Value) :
    List ScopeT → List ScopeT × Option ErrTag
  | [] => ([], some (.varNotFound nm))
  | sc :: rest =>
      match alookup nm sc with
      | some val =>
          match val with
          | .array elems =>
              match iv with
              | .number idx =>
                  if 0 ≤ idx ∧ idx.toNat < elems.length then
                    (alInsert nm (.array (elems.set idx.toNat vv)) sc :: rest, none)
                  else (sc :: rest, some (.indexOutOfRange idx))
              | _ => (sc :: rest, some .indexNotNumber)
          | _ => (sc :: rest, some (.notAnArray nm))
      | none =>
          let r := assign_index_scopes nm iv vv rest
          (sc :: r.1, r.2)

/-- interpreter.rs `Expr::Call` user-function scope: parameters seeded
left to right with the matching argument, missing arguments default to
`Number(0)`, extra arguments are ignored. -/
def mk_call_scope : List String → List Value → ScopeT → ScopeT
  | [], _, acc => acc
  | p :: ps, [], acc => mk_call_scope ps [] (alInsert p (.number 0) acc)
  | p :: ps, a :: rest, acc => mk_call_scope ps rest (alInsert p a acc)

/-- Rust `s.trim().parse::<i64>().unwrap_or(0)` (the `son` builtin):
optional sign, all digits, in-range, else 0. -/
def parse_i64 (s : String) : Int :=
  match s.trim.toList with
  | '+' :: ds =>
      if ds ≠ [] ∧ ds.all Char.isDigit ∧ digitsToNat ds ≤ 2 ^ 63 - 1 then digitsToNat ds else 0
  | '-' :: ds =>
      if ds ≠ [] ∧ ds.all Char.isDigit ∧ digitsToNat ds ≤ 2 ^ 63 then -(digitsToNat ds : Int) else 0
  | ds =>
      if ds ≠ [] ∧ ds.all Char.isDigit ∧ digitsToNat ds ≤ 2 ^ 63 - 1 then digitsToNat ds else 0

/-- The string the `turi` builtin returns with no argument (written as
characters because of the apostrophe in the Uzbek word). -/
def unknownTypeString : String := String.mk ['n', 'o', 'm', 'a', '\'', 'l', 'u', 'm']

/-- Execution outcome.  `.abort` is a Rust panic (the process dies);
`.fuel` is only an artifact of the fuel embedding, not a behaviour of
the program. -/
inductive Err where
  | abort
  | fuel
deriving DecidableEq, Repr

inductive Out (α : Type) where
  | ok (a : α) (st : St)
  | die (e : Err) (st : St)

/-! ## The evaluator (interpreter.rs `evaluate` / `execute_stmt` /
`execute`), in explicit state-passing style.  Every recursive call
passes the predecessor of the fuel, so plain induction on fuel covers
the whole mutual block. -/

mutual

def evaluate (cfg : Cfg) : Nat → Expr → St → Out Value
  | 0, _, st => .die .fuel st
  | fuel + 1, e, st =>
    match e with
    | .Number n => .ok (.number n) st
    | .StringLiteral s => .ok (.str s) st
    | .Identifier nm => .ok (get_variable st nm) st
    | .Input =>
        match st.stdin_q with
        | [] => .ok (.str "") st
        | line :: rest => .ok (.str line.trim) { st with stdin_q := rest }
    | .Array elems =>
        match evalList cfg fuel elems st with
        | .ok vs st => .ok (.array vs) st
        | .die er st => .die er st
    | .Index target index =>
        match evaluate cfg fuel target st with
        | .die er st => .die er st
        | .ok tv st =>
          match evaluate cfg fuel index st with
          | .die er st => .die er st
          | .ok iv st =>
            match tv with
            | .array elems =>
                match iv with
                | .number idx =>
                    if 0 ≤ idx ∧ idx.toNat < elems.length then
                      .ok (elems.getD idx.toNat (.number 0)) st
                    else .ok (.number 0) (report st (.indexOutOfRange idx))
                | _ => .ok (.number 0) (report st .indexNotNumber)
            | _ => .ok (.number 0) (report st .indexTargetNotArray)
    | .Call nm args =>
        match evalList cfg fuel args st with
        | .die er st => .die er st
        | .ok argv st =>
          if nm = "son" then
            match argv.head? with
            | some (.str s) => .ok (.number (parse_i64 s)) st
            | some (.number n) => .ok (.number n) st
            | some _ => .ok (.number 0) st
            | none => .ok (.number 0) st
          else if nm = "matn" then
            match argv.head? with
            | some v => .ok (.str v.display) st
            | none => .ok (.str "") st
          else if nm = "turi" then
            match argv.head? with
            | some (.number _) => .ok (.str "son") st
            | some (.str _) => .ok (.str "matn") st
            | some (.bool _) => .ok (.str "mantiq") st
            | some (.array _) => .ok (.str "massiv") st
            | none => .ok (.str unknownTypeString) st
          else if nm = "uzunlik" then
            match argv.head? with
            | some (.array elems) => .ok (.number elems.length) st
            | _ => .ok (.number 0) st
          else if nm = "qosh" then
            if 2 ≤ argv.length then
              match argv.getD 0 (.number 0) with
              | .array elems => .ok (.array (elems ++ [argv.getD 1 (.number 0)])) st
              | _ => .ok (.number 0) (report st .qoshFirstNotArray)
            else .ok (.number 0) st
          else if nm = "internet_ol" then
            match argv.head? with
            | some v =>
                let url := v.display
                if ¬ is_safe_url cfg.parseUrl cfg.resolve url then
                  .ok (.str "") (report st (.unsafeUrl url))
                else
                  let st := { st with reqs := st.reqs ++ [⟨false, url, ""⟩] }
                  match cfg.httpGet url with
                  | .netErr => .ok (.str "") (report st .netError)
                  | .readErr => .ok (.str "") (report st .readError)
                  | .body s => .ok (.str (s.take (5 * 1024 * 1024))) st
            | none => .ok (.str "") st
          else if nm = "internet_yoz" then
            if 2 ≤ argv.length then
              let url := (argv.getD 0 (.number 0)).display
              let payload := (argv.getD 1 (.number 0)).display
              if ¬ is_safe_url cfg.parseUrl cfg.resolve url then
                .ok (.str "") (report st (.unsafeUrl url))
              else
                let st := { st with reqs := st.reqs ++ [⟨true, url, payload⟩] }
                match cfg.httpPost url payload with
                | .netErr => .ok (.str "") (report st .netError)
                | .readErr => .ok (.str "") (report st .readError)
                | .body s => .ok (.str (s.take (5 * 1024 * 1024))) st
            else .ok (.str "") st
          else
            match alookup nm st.functions with
            | some (params, body) =>
                let st := { st with env_stack := mk_call_scope params argv [] :: st.env_stack }
                match execute cfg fuel body st with
                | .die er st => .die er st
                | .ok r st =>
                    .ok (r.getD (.number 0)) { st with env_stack := st.env_stack.tail }
            | none => .ok (.number 0) (report st (.funcNotFound nm))
    | .UnaryOp op e1 =>
        match evaluate cfg fuel e1 st with
        | .die er st => .die er st
        | .ok v st =>
            if op = "!" then .ok (.bool (!is_truthy v)) st
            else .ok (.bool false) st
    | .BinaryOp l op r =>
        if op = "&&" then
          match evaluate cfg fuel l st with
          | .die er st => .die er st
          | .ok lv st =>
              if ¬ is_truthy lv then .ok (.bool false) st
              else
                match evaluate cfg fuel r st with
                | .die er st => .die er st
                | .ok rv st => .ok (.bool (is_truthy rv)) st
        else if op = "||" then
          match evaluate cfg fuel l st with
          | .die er st => .die er st
          | .ok lv st =>
              if is_truthy lv then .ok (.bool true) st
              else
                match evaluate cfg fuel r st with
                | .die er st => .die er st
                | .ok rv st => .ok (.bool (is_truthy rv)) st
        else
          match evaluate cfg fuel l st with
          | .die er st => .die er st
          | .ok lv st =>
            match evaluate cfg fuel r st with
            | .die er st => .die er st
            | .ok rv st =>
                match evaluate_binary lv op rv with
                | some v => .ok v st
                | none => .die .abort st

def evalList (cfg : Cfg) : Nat → List Expr → St → Out (List Value)
  | 0, _, st => .die .fuel st
  | _ + 1, [], st => .ok [] st
  | fuel + 1, e :: es, st =>
      match evaluate cfg fuel e st with
      | .die er st => .die er st
      | .ok v st =>
          match evalList cfg fuel es st with
          | .die er st => .die er st
          | .ok vs st => .ok (v :: vs) st

def execute (cfg : Cfg) : Nat → List Stmt → St → Out (Option Value)
  | 0, _, st => .die .fuel st
  | _ + 1, [], st => .ok none st
  | fuel + 1, s :: ss, st =>
      match execute_stmt cfg fuel s st with
      | .die er st => .die er st
      | .ok (some v) st => .ok (some v) st
      | .ok none st => execute cfg fuel ss st

def execute_stmt (cfg : Cfg) : Nat → Stmt → St → Out (Option Value)
  | 0, _, st => .die .fuel st
  | fuel + 1, s, st =>
    match s with
    | .Print e =>
        match evaluate cfg fuel e st with
        | .die er st => .die er st
        | .ok v st => .ok none { st with output := st.output ++ [v.display] }
    | .If cond body =>
        match evaluate cfg fuel cond st with
        | .die er st => .die er st
        | .ok v st =>
            if is_truthy v then execute cfg fuel body st
            else .ok none st
    | .Loop cond body => loopWhile cfg fuel cond body st
    | .For var coll body =>
        match evaluate cfg fuel coll st with
        | .die er st => .die er st
        | .ok v st =>
            match v with
            | .array elems => forIter cfg fuel var elems body st
            | _ => .ok none (report st .forNeedsArray)
    | .Assign nm e =>
        match evaluate cfg fuel e st with
        | .die er st => .die er st
        | .ok v st => .ok none (set_variable st nm v)
    | .AssignIndex nm ie ve =>
        match evaluate cfg fuel ie st with
        | .die er st => .die er st
        | .ok iv st =>
          match evaluate cfg fuel ve st with
          | .die er st => .die er st
          | .ok vv st =>
              let r := assign_index_scopes nm iv vv st.env_stack
              let st := { st with env_stack := r.1 }
              match r.2 with
              | some t => .ok none (report st t)
              | none => .ok none st
    | .Function nm params body =>
        .ok none { st with functions := alInsert nm (params, body) st.functions }
    | .Return e =>
        match evaluate cfg fuel e st with
        | .die er st => .die er st
        | .ok v st => .ok (some v) st
    | .Expr e =>
        match evaluate cfg fuel e st with
        | .die er st => .die er st
        | .ok _ st => .ok none st

/-- interpreter.rs `Stmt::Loop` while-loop, one fuel unit per test. -/
def loopWhile (cfg : Cfg) : Nat → Expr → List Stmt → St → Out (Option Value)
  | 0, _, _, st => .die .fuel st
  | fuel + 1, cond, body, st =>
      match evaluate cfg fuel cond st with
      | .die er st => .die er st
      | .ok v st =>
          if is_truthy v then
            match execute cfg fuel body st with
            | .die er st => .die er st
            | .ok (some r) st => .ok (some r) st
            | .ok none st => loopWhile cfg fuel cond body st
          else .ok none st

/-- interpreter.rs `Stmt::For` iteration: per element push the scope
`{var ↦ element}` (the Rust code reuses a cleared map, observably a
fresh one-entry scope), run the body, pop, and propagate a return. -/
def forIter (cfg : Cfg) : Nat → String → List Value → List Stmt → St → Out (Option Value)
  | 0, _, _, _, st => .die .fuel st
  | _ + 1, _, [], _, st => .ok none st
  | fuel + 1, var, el :: els, body, st =>
      match execute cfg fuel body { st with env_stack := [(var, el)] :: st.env_stack } with
      | .die er st => .die er st
      | .ok r st =>
          let st := { st with env_stack := st.env_stack.tail }
          match r with
          | some v => .ok (some v) st
          | none => forIter cfg fuel var els body st

end

/-! ## Spec-side definitions (claim statements)

These follow the WORDS of the specification / claims, to be compared
with the definitions translated from the source. -/

/-- Spec (§4.3.6 / C2): membership of an IPv4 address in the listed
ranges `127.0.0.0/8`, `10.0.0.0/8`, `172.16.0.0/12`, `192.168.0.0/16`,
`169.254.0.0/16`, `0.0.0.0/8`, `100.64.0.0/10`, `255.255.255.255`. -/
def spec_v4_unsafe (ip : Ipv4Addr) : Bool :=
  ip.o0 = 127 ∨ ip.o0 = 10 ∨ (ip.o0 = 172 ∧ 16 ≤ ip.o1 ∧ ip.o1 ≤ 31)
    ∨ (ip.o0 = 192 ∧ ip.o1 = 168) ∨ (ip.o0 = 169 ∧ ip.o1 = 254) ∨ ip.o0 = 0
    ∨ (ip.o0 = 100 ∧ 64 ≤ ip.o1 ∧ ip.o1 ≤ 127)
    ∨ (ip.o0 = 255 ∧ ip.o1 = 255 ∧ ip.o2 = 255 ∧ ip.o3 = 255)

/-- An IPv4-mapped IPv6 address `::ffff:a.b.c.d` (RFC 4291 2.5.5.2). -/
def spec_v4_mapped (ip : Ipv6Addr) : Bool :=
  ip.s0 = 0 ∧ ip.s1 = 0 ∧ ip.s2 = 0 ∧ ip.s3 = 0 ∧ ip.s4 = 0 ∧ ip.s5 = 0xffff

/-- An IPv4-compatible IPv6 address `::a.b.c.d` (RFC 4291 2.5.5.1). -/
def spec_v4_compat (ip : Ipv6Addr) : Bool :=
  ip.s0 = 0 ∧ ip.s1 = 0 ∧ ip.s2 = 0 ∧ ip.s3 = 0 ∧ ip.s4 = 0 ∧ ip.s5 = 0

/-- The IPv4 address embedded in the last 32 bits of an IPv6 address. -/
def embedded_v4 (ip : Ipv6Addr) : Ipv4Addr :=
  ⟨ip.s6 / 256, ip.s6 % 256, ip.s7 / 256, ip.s7 % 256⟩

/-- Claim C2's unsafe set, exactly as worded: the listed IPv4 ranges;
`::1`, `::`, `fc00::/7`, `fe80::/10`; and IPv4-MAPPED IPv6 addresses
whose embedded IPv4 is in a listed range. -/
def claimed_unsafe : IpAddr → Bool
  | .V4 ip => spec_v4_unsafe ip
  | .V6 ip =>
      ip.is_loopback ∨ ip.is_unspecified
        ∨ ip.s0 &&& 0xfe00 = 0xfc00 ∨ ip.s0 &&& 0xffc0 = 0xfe80
        ∨ (spec_v4_mapped ip ∧ spec_v4_unsafe (embedded_v4 ip))

/-- The amended unsafe set: as `claimed_unsafe`, but IPv4-COMPATIBLE
addresses (`::a.b.c.d`) with an unsafe embedded IPv4 are also unsafe,
because `Ipv6Addr::to_ipv4` converts both forms. -/
def amended_unsafe : IpAddr → Bool
  | .V4 ip => spec_v4_unsafe ip
  | .V6 ip =>
      ip.is_loopback ∨ ip.is_unspecified
        ∨ ip.s0 &&& 0xfe00 = 0xfc00 ∨ ip.s0 &&& 0xffc0 = 0xfe80
        ∨ ((spec_v4_compat ip ∨ spec_v4_mapped ip) ∧ spec_v4_unsafe (embedded_v4 ip))

/-! ## Concrete fixtures used by the claim theorems -/

/-- A URL-parse oracle knowing one well-formed http URL
(`port_or_known_default` is 80 for the http scheme). -/
def parseOracle : String → Option Url := fun s =>
  if s = "http://example.com/" then some ⟨"http", some "example.com", some 80⟩ else none

/-- A DNS oracle on which every resolution fails (`to_socket_addrs`
returns an error). -/
def resolveFail : String → Option (List IpAddr) := fun _ => none

/-- Oracles: URL parsing as above, all DNS resolution failing, every
HTTP request answered with a network error. -/
def cfgDnsFail : Cfg := ⟨parseOracle, resolveFail, fun _ => .netErr, fun _ _ => .netErr⟩

/-- The initial interpreter state (one empty global scope), with given
predefined bindings in the global scope. -/
def initSt (globals : ScopeT) : St := ⟨[globals], [], [], [], [], []⟩

/-- C6 counterexample program state: `a` bound to the one-element array
`[5]`, `x` bound to `0`, and a function `f()` that assigns `x = 1` and
returns `99`. -/
def stC6 : St :=
  { initSt [("a", .array [.number 5]), ("x", .number 0)] with
    functions := [("f", ([], [.Assign "x" (.Number 1), .Return (.Number 99)]))] }

/-- C6 counterexample statement: `a[f()] = 0`. -/
def stmtC6 : Stmt := .AssignIndex "a" (.Call "f" []) (.Number 0)

/-- The state after running the C6 counterexample statement. -/
def stC6' : St :=
  match execute_stmt cfgDnsFail 10 stmtC6 stC6 with
  | .ok _ st => st
  | .die _ st => st

/-- C10 counterexample program state: `x` bound to `0` (and nothing
named `a` anywhere), same function `f`. -/
def stC10 : St :=
  { initSt [("x", .number 0)] with
    functions := [("f", ([], [.Assign "x" (.Number 1), .Return (.Number 99)]))] }

/-- The state after running the C6 statement (`a[f()] = 0`) from the
C10 state, where `a` is unbound. -/
def stC10' : St :=
  match execute_stmt cfgDnsFail 10 stmtC6 stC10 with
  | .ok _ st => st
  | .die _ st => st

/-- C5 witness state: `a` and `b` bound to (observably) the same
three-element array, as after `a = [10,20,30]` and `b = a`. -/
def stC5 : St := initSt
  [("a", .array [.number 10, .number 20, .number 30]),
   ("b", .array [.number 10, .number 20, .number 30])]

/-- The result of evaluating `internet_ol("http://example.com/")` under
the oracles of `cfgDnsFail` (DNS resolution fails). -/
def c1Out : Out Value :=
  evaluate cfgDnsFail 5 (.Call "internet_ol" [.StringLiteral "http://example.com/"]) (initSt [])

/-- The state component of `c1Out`. -/
def c1St : St := match c1Out with | .ok _ st => st | .die _ st => st

/-! ## Frame relations on scope stacks (for the For-loop scoping claim)

During ok-execution the scope stack can be split as `pre ++ post`, where
`pre` covers the scopes pushed by enclosing constructs.  Ok-execution
(i) keeps the split lengths, (ii) only grows the domain of `pre` scopes
(inserts go to the innermost scope), (iii) keeps the domain of every
`post` scope exactly, and (iv) never touches, in `post`, the binding of
a name that is bound somewhere in `pre` (the scope walks stop at the
`pre` binding first). -/

def scope_dom_eq (sc sc' : ScopeT) : Prop :=
  ∀ nm, (alookup nm sc').isSome = (alookup nm sc).isSome

def scope_dom_mono (sc sc' : ScopeT) : Prop :=
  ∀ nm, (alookup nm sc).isSome = true → (alookup nm sc').isSome = true

def bind_eq (v : String) (sc sc' : ScopeT) : Prop := alookup v sc' = alookup v sc

def boundIn (v : String) (stk : List ScopeT) : Prop :=
  ∃ sc ∈ stk, (alookup v sc).isSome = true

def frame_step (pre post pre' post' : List ScopeT) : Prop :=
  pre'.length = pre.length ∧
  List.Forall₂ scope_dom_mono pre pre' ∧
  List.Forall₂ scope_dom_eq post post' ∧
  ∀ v, boundIn v pre → List.Forall₂ (bind_eq v) post post'

/-- The frame relation carried by expression evaluation (the split
`pre` may be empty: expressions assign only from inside a pushed call
scope). -/
def EnvFrame (stk stk' : List ScopeT) : Prop :=
  ∀ pre post, stk = pre ++ post →
    ∃ pre' post', stk' = pre' ++ post' ∧ frame_step pre post pre' post'

/-- The frame relation carried by statement execution (`pre` nonempty:
a top-level `Assign` of a fresh name inserts into the innermost scope,
which must belong to `pre`). -/
def EnvFrameNE (stk stk' : List ScopeT) : Prop :=
  ∀ pre post, pre ≠ [] → stk = pre ++ post →
    ∃ pre' post', stk' = pre' ++ post' ∧ frame_step pre post pre' post'

/-- C9 witness program: `uchun i ichida [1, 2] { i = 9  x = 5 }`. -/
def stmtC9 : Stmt :=
  .For "i" (.Array [.Number 1, .Number 2]) [.Assign "i" (.Number 9), .Assign "x" (.Number 5)]

/-- The state after the C9 witness loop. -/
def stC9' : St :=
  match execute_stmt cfgDnsFail 10 stmtC9 (initSt []) with
  | .ok _ st => st
  | .die _ st => st


/-! # Theorems -/

/-! ## Decidable equality of values -/

mutual
theorem Value.beq_eq : ∀ a b : Value, Value.beq a b = true ↔ a = b
  | .number _, .number _ => by simp [Value.beq]
  | .number _, .str _ => by simp [Value.beq]
  | .number _, .bool _ => by simp [Value.beq]
  | .number _, .array _ => by simp [Value.beq]
  | .str _, .number _ => by simp [Value.beq]
  | .str _, .str _ => by simp [Value.beq]
  | .str _, .bool _ => by simp [Value.beq]
  | .str _, .array _ => by simp [Value.beq]
  | .bool _, .number _ => by simp [Value.beq]
  | .bool _, .str _ => by simp [Value.beq]
  | .bool _, .bool _ => by simp [Value.beq]
  | .bool _, .array _ => by simp [Value.beq]
  | .array _, .number _ => by simp [Value.beq]
  | .array _, .str _ => by simp [Value.beq]
  | .array _, .bool _ => by simp [Value.beq]
  | .array a, .array b => by
      simp only [Value.beq, Value.array.injEq]
      exact Value.beqList_eq a b
theorem Value.beqList_eq : ∀ a b : List Value, Value.beqList a b = true ↔ a = b
  | [], [] => by simp [Value.beqList]
  | [], _ :: _ => by simp [Value.beqList]
  | _ :: _, [] => by simp [Value.beqList]
  | x :: xs, y :: ys => by
      simp only [Value.beqList, Bool.and_eq_true, List.cons.injEq]
      rw [Value.beq_eq x y, Value.beqList_eq xs ys]
end

instance : DecidableEq Value := fun a b =>
  decidable_of_iff (Value.beq a b = true) (Value.beq_eq a b)

/-! ## C1: URL safety gate and DNS resolution -/

/-- C1: the claim states that `is_safe_url` accepts a URL only when DNS
resolution succeeds and that on resolution failure the URL is rejected
without a request.  The code disagrees: when `to_socket_addrs` returns
an error, the `if let Ok` block is skipped and `is_safe_url` falls
through to `return true`, so the request IS attempted (here answered
with a network error), contradicting the source comment "If resolution
fails, we cannot verify safety, so we block."  Under oracles where
`"example.com:80"` fails to resolve: the URL is accepted, the GET
request is logged as sent, and the error reported is the network error,
not the security rejection. -/
theorem C1_resolution_failure_accepted :
    is_safe_url parseOracle resolveFail "http://example.com/" = true ∧
    c1Out = .ok (.str "") c1St ∧
    c1St.reqs = [⟨false, "http://example.com/", ""⟩] ∧
    c1St.errors = [.netError] := by
  refine ⟨by decide, rfl, by decide, by decide⟩

/-! ## C2: the set of rejected IP addresses -/

/-- C2 counterexample: the IPv4-compatible IPv6 address `::127.0.0.1`
(segments `0,0,0,0,0,0,0x7f00,1`) is outside every range listed by the
claim (it is not IPv4-MAPPED, its sixth segment is 0 not 0xffff), so
the claim says `is_safe_ip` returns true on it; the code returns false,
because Rust `Ipv6Addr::to_ipv4` also converts IPv4-compatible
addresses and the embedded `127.0.0.1` is unsafe. -/
theorem C2_counterexample :
    claimed_unsafe (.V6 ⟨0, 0, 0, 0, 0, 0, 0x7f00, 1⟩) = false ∧
    is_safe_ip (.V6 ⟨0, 0, 0, 0, 0, 0, 0x7f00, 1⟩) = false := by decide

theorem is_safe_ipv4_eq (ip : Ipv4Addr) : is_safe_ipv4 ip = ! spec_v4_unsafe ip := by
  simp only [is_safe_ipv4, spec_v4_unsafe]
  split_ifs <;> simp_all <;> omega

theorem is_safe_ipv6_eq (ip : Ipv6Addr) : is_safe_ipv6 ip = ! amended_unsafe (.V6 ip) := by
  simp only [is_safe_ipv6, amended_unsafe]
  by_cases hc : ip.s0 = 0 ∧ ip.s1 = 0 ∧ ip.s2 = 0 ∧ ip.s3 = 0 ∧ ip.s4 = 0
      ∧ (ip.s5 = 0 ∨ ip.s5 = 0xffff)
  · simp only [Ipv6Addr.to_ipv4, if_pos hc]
    split_ifs <;>
      simp_all [is_safe_ipv4_eq, spec_v4_compat, spec_v4_mapped, embedded_v4] <;> tauto
  · simp only [Ipv6Addr.to_ipv4, if_neg hc]
    split_ifs <;>
      simp_all [spec_v4_compat, spec_v4_mapped] <;> tauto

/-- C2 amended: `is_safe_ip` rejects exactly the claim's listed ranges
PLUS the IPv4-compatible IPv6 addresses (`::a.b.c.d`) whose embedded
IPv4 lies in a listed range, and accepts everything else. -/
theorem C2_amended_safe_ip (ip : IpAddr) : is_safe_ip ip = ! amended_unsafe ip := by
  cases ip with
  | V4 v => exact is_safe_ipv4_eq v
  | V6 v => exact is_safe_ipv6_eq v

/-! ## C3: totality of binary evaluation -/

/-- C3 counterexample: evaluating `1 / 0` over two Number operands does
not yield a value — the Rust `l / r` panics on a zero divisor, aborting
the interpreter (modelled as `none`). -/
theorem C3_counterexample : evaluate_binary (.number 1) "/" (.number 0) = none := rfl

set_option maxHeartbeats 1000000 in
/-- C3 amended: `evaluate_binary` over two Number operands yields a
value for every operator and every pair of operand values EXCEPT
division with a zero right operand or the overflowing division
`i64::MIN / -1`, which abort (Rust division panic). -/
theorem C3_amended_binary_total (l r : Int) (op : String) :
    evaluate_binary (.number l) op (.number r) = none ↔
      op = "/" ∧ (r = 0 ∨ (l = i64min ∧ r = -1)) := by
  simp only [evaluate_binary]
  split_ifs <;> simp_all

/-! ## C4: `toki` versus `takrorla` -/

set_option maxHeartbeats 2000000

/-- C4: the claim says `toki` and `takrorla` parse identically to
`Loop`.  In the source, `parse_stmt` has NO `Token::Toki` arm: on
`takrorla 1 { }` the parser yields `Loop(1, [])`, while on `toki 1 { }`
the `toki` token falls into the default expression branch, is reported
as an unexpected token and consumed, `1` parses as a bare expression
statement, and the braces are two further unexpected-token errors —
even though the lexer does map `toki` to its own keyword token. -/
theorem C4_toki_not_a_loop :
    (parse [.Takrorla, .Number 1, .LBrace, .RBrace, .EOF]).1 = [.Loop (.Number 1) []] ∧
    (parse [.Toki, .Number 1, .LBrace, .RBrace, .EOF]).1 = [.Expr (.Number 1)] ∧
    (parse [.Toki, .Number 1, .LBrace, .RBrace, .EOF]).2.errs =
      [.unexpectedToken, .unexpectedToken, .unexpectedToken] ∧
    keywordToken "toki" = .Toki ∧ keywordToken "takrorla" = .Takrorla :=
  ⟨rfl, rfl, rfl, rfl, rfl⟩

set_option maxHeartbeats 200000

/-! ## C7: `&&`, `||`, and standalone `&`, `|` -/

/-- C7 counterexample: the claim says a standalone `&` is not
recognized as any token and is skipped; the lexer in fact emits
`Operator("&")`. -/
theorem C7_counterexample :
    tokenize "&" = [.Operator "&", .EOF] ∧ tokenize "&" ≠ [.EOF] := by
  refine ⟨rfl, ?_⟩
  decide

/-- C7 amended: `&&` lexes to `And` and `||` to `Or`; a standalone `&`
or `|` (not followed by a second one) is NOT skipped — it is emitted as
`Operator("&")` / `Operator("|")` (with a following `=` consumed into
`Operator("&=")` / `Operator("|=")`), and every token produced by a
scan step is pushed to the output by the scan loop. -/
theorem C7_amended_ops :
    (∀ fuel rest, tokGo (fuel + 1) ('&' :: '&' :: rest) = .And :: tokGo fuel rest) ∧
    (∀ fuel rest, tokGo (fuel + 1) ('|' :: '|' :: rest) = .Or :: tokGo fuel rest) ∧
    (∀ c rest, c ≠ '&' → c ≠ '=' →
      tok_step '&' (c :: rest) = (some (.Operator "&"), c :: rest)) ∧
    (∀ c rest, c ≠ '|' → c ≠ '=' →
      tok_step '|' (c :: rest) = (some (.Operator "|"), c :: rest)) ∧
    (∀ rest, tok_step '&' ('=' :: rest) = (some (.Operator "&="), rest)) ∧
    (∀ rest, tok_step '|' ('=' :: rest) = (some (.Operator "|="), rest)) ∧
    tok_step '&' [] = (some (.Operator "&"), []) ∧
    tok_step '|' [] = (some (.Operator "|"), []) ∧
    (∀ fuel c cs t rest, tok_step c cs = (some t, rest) →
      tokGo (fuel + 1) (c :: cs) = t :: tokGo fuel rest) := by
  refine ⟨fun fuel rest => rfl, fun fuel rest => rfl, ?_, ?_,
    fun rest => rfl, fun rest => rfl, rfl, rfl, ?_⟩
  · intro c rest hc he
    unfold tok_step
    rw [if_neg (by decide), if_neg (by decide), if_neg (by decide), if_neg (by decide),
      if_neg (by decide), if_pos (by decide)]
    simp only [read_operator]
    rw [if_neg (fun h => hc h.2), if_neg (fun h => absurd h.1 (by decide)), if_neg he,
      if_neg (by decide)]
  · intro c rest hc he
    unfold tok_step
    rw [if_neg (by decide), if_neg (by decide), if_neg (by decide), if_neg (by decide),
      if_neg (by decide), if_pos (by decide)]
    simp only [read_operator]
    rw [if_neg (fun h => absurd h.1 (by decide)), if_neg (fun h => hc h.2), if_neg he,
      if_neg (by decide)]
  · intro fuel c cs t rest hstep
    rw [tokGo, hstep]

/-- C7 amended, witness: the general parts applied at `&` followed by a
space, and a standalone `&` carried through the scan loop. -/
theorem C7_amended_ops_witness :
    tok_step '&' [' '] = (some (.Operator "&"), [' ']) ∧
    tokGo 2 ['&'] = [.Operator "&"] := by
  constructor
  · exact C7_amended_ops.2.2.1 ' ' [] (by decide) (by decide)
  · exact (C7_amended_ops.2.2.2.2.2.2.2.2 1 '&' [] (.Operator "&") [] rfl).trans rfl

/-! ## Association-list and scope-walk lemmas -/

theorem alookup_alInsert {α : Type} (nm nm' : String) (v : α) (sc : List (String × α)) :
    alookup nm' (alInsert nm v sc) = if nm' = nm then some v else alookup nm' sc := by
  induction sc with
  | nil => simp [alInsert, alookup, eq_comm]
  | cons kv rest ih =>
      obtain ⟨k, w⟩ := kv
      by_cases hk : k = nm
      · subst hk
        simp only [alInsert, if_pos rfl, alookup]
        by_cases h' : k = nm'
        · simp [h', eq_comm]
        · rw [if_neg h', if_neg (fun h : nm' = k => h' h.symm), if_neg h']
      · simp only [alInsert, if_neg hk, alookup]
        by_cases h' : k = nm'
        · rw [if_pos h', if_pos h', if_neg (fun h : nm' = nm => hk (h' ▸ h))]
        · rw [if_neg h', if_neg h', ih]

/-- The frame property of the AssignIndex scope walk: the binding of
any other name, in any scope, is untouched. -/
theorem assign_index_frame (nm nm' : String) (iv vv : Value) (stk : List ScopeT)
    (h : nm' ≠ nm) :
    lookup_stack nm' (assign_index_scopes nm iv vv stk).1 = lookup_stack nm' stk := by
  induction stk with
  | nil => rfl
  | cons sc rest ih =>
      cases hval : alookup nm sc with
      | none =>
          simp only [assign_index_scopes, hval, lookup_stack]
          rw [ih]
      | some val =>
          cases val with
          | array elems =>
              cases iv with
              | number idx =>
                  by_cases hr : 0 ≤ idx ∧ idx.toNat < elems.length
                  · simp only [assign_index_scopes, hval, if_pos hr, lookup_stack]
                    rw [alookup_alInsert, if_neg h]
                  · simp only [assign_index_scopes, hval, if_neg hr, lookup_stack]
              | str s => simp only [assign_index_scopes, hval, lookup_stack]
              | bool b => simp only [assign_index_scopes, hval, lookup_stack]
              | array a => simp only [assign_index_scopes, hval, lookup_stack]
          | number n => simp only [assign_index_scopes, hval, lookup_stack]
          | str s => simp only [assign_index_scopes, hval, lookup_stack]
          | bool b => simp only [assign_index_scopes, hval, lookup_stack]





theorem lookup_stack_none (nm : String) (stk : List ScopeT) :
    lookup_stack nm stk = none ↔ ∀ sc ∈ stk, alookup nm sc = none := by
  induction stk with
  | nil => simp [lookup_stack]
  | cons sc rest ih =>
      cases h : alookup nm sc with
      | none => simp [lookup_stack, h, ih]
      | some v => simp [lookup_stack, h]

/-- AssignIndex on a name bound nowhere: the stack is returned
unchanged and the variable-not-found error is reported. -/
theorem assign_index_unbound (nm : String) (iv vv : Value) (stk : List ScopeT)
    (h : lookup_stack nm stk = none) :
    assign_index_scopes nm iv vv stk = (stk, some (.varNotFound nm)) := by
  induction stk with
  | nil => rfl
  | cons sc rest ih =>
      rw [lookup_stack] at h
      cases hsc : alookup nm sc with
      | none =>
          rw [hsc] at h
          simp only [assign_index_scopes, hsc, ih h]
      | some v => rw [hsc] at h; exact absurd h (by simp)

/-- AssignIndex in-range success: the innermost binding of `nm` (an
array) is replaced by the updated array and no error is reported. -/
theorem assign_index_update (nm : String) (i : Int) (vv : Value) (stk : List ScopeT)
    (arr : List Value)
    (ha : lookup_stack nm stk = some (.array arr))
    (h0 : 0 ≤ i) (hlen : i.toNat < arr.length) :
    (assign_index_scopes nm (.number i) vv stk).2 = none ∧
    lookup_stack nm (assign_index_scopes nm (.number i) vv stk).1 =
      some (.array (arr.set i.toNat vv)) := by
  induction stk with
  | nil => simp [lookup_stack] at ha
  | cons sc rest ih =>
      rw [lookup_stack] at ha
      cases hsc : alookup nm sc with
      | none =>
          rw [hsc] at ha
          have := ih ha
          simp only [assign_index_scopes, hsc, lookup_stack]
          exact ⟨this.1, this.2⟩
      | some val =>
          rw [hsc] at ha
          have hv : val = .array arr := by simpa using ha
          subst hv
          simp only [assign_index_scopes, hsc]
          rw [if_pos (show (0 : Int) ≤ i ∧ i.toNat < arr.length from ⟨h0, hlen⟩)]
          constructor
          · rfl
          · simp only [lookup_stack]
            rw [alookup_alInsert, if_pos rfl]

/-- AssignIndex with an existing array binding and a bad index (not a
number, negative, or past the end): the stack is unchanged and the
matching error is reported. -/
theorem assign_index_bad (nm : String) (iv vv : Value) (stk : List ScopeT)
    (arr : List Value)
    (ha : lookup_stack nm stk = some (.array arr))
    (hbad : ∀ i : Int, iv = .number i → ¬(0 ≤ i ∧ i.toNat < arr.length)) :
    (assign_index_scopes nm iv vv stk).1 = stk ∧
    ((∃ i : Int, iv = .number i ∧ (assign_index_scopes nm iv vv stk).2 = some (.indexOutOfRange i))
      ∨ ((∀ i : Int, iv ≠ .number i) ∧
          (assign_index_scopes nm iv vv stk).2 = some .indexNotNumber)) := by
  induction stk with
  | nil => simp [lookup_stack] at ha
  | cons sc rest ih =>
      rw [lookup_stack] at ha
      cases hsc : alookup nm sc with
      | none =>
          rw [hsc] at ha
          have := ih ha
          simp only [assign_index_scopes, hsc]
          refine ⟨by rw [this.1], ?_⟩
          rcases this.2 with ⟨i, hi, h2⟩ | ⟨hn, h2⟩
          · exact Or.inl ⟨i, hi, h2⟩
          · exact Or.inr ⟨hn, h2⟩
      | some val =>
          rw [hsc] at ha
          have hv : val = .array arr := by simpa using ha
          subst hv
          cases iv with
          | number idx =>
              have hno := hbad idx rfl
              refine ⟨by simp [assign_index_scopes, hsc, if_neg hno], ?_⟩
              exact Or.inl ⟨idx, rfl, by simp [assign_index_scopes, hsc, if_neg hno]⟩
          | str s =>
              refine ⟨by simp [assign_index_scopes, hsc], ?_⟩
              exact Or.inr ⟨(fun i h => Value.noConfusion h), by simp [assign_index_scopes, hsc]⟩
          | bool b =>
              refine ⟨by simp [assign_index_scopes, hsc], ?_⟩
              exact Or.inr ⟨(fun i h => Value.noConfusion h), by simp [assign_index_scopes, hsc]⟩
          | array a =>
              refine ⟨by simp [assign_index_scopes, hsc], ?_⟩
              exact Or.inr ⟨(fun i h => Value.noConfusion h), by simp [assign_index_scopes, hsc]⟩





theorem set_in_stack_none (nm : String) (v : Value) (stk : List ScopeT)
    (h : lookup_stack nm stk = none) : set_in_stack nm v stk = none := by
  induction stk with
  | nil => rfl
  | cons sc rest ih =>
      rw [lookup_stack] at h
      cases hsc : alookup nm sc with
      | none =>
          rw [hsc] at h
          simp only [set_in_stack, hsc, Option.isSome_none, ih h]
          rfl
      | some v' => rw [hsc] at h; exact absurd h (by simp)

/-- C5: executing `a[i] = v` (AssignIndex) with an in-range numeric
index over an array binding updates only the binding of `a`: the value
read through any other binding `b` — in particular a second binding
`b = a` that (in Rust) shares the array's storage — is unchanged at
every position, the function table and error channel are untouched, and
`a` reads back as the updated array.  Rust's `Rc::make_mut` clones
shared storage before the in-place write, so the observable semantics
is exactly this pure-value update. -/
theorem C5_assign_index_frame
    (cfg : Cfg) (fuel : Nat) (a b : String) (ie ve : Expr) (st st1 st2 : St)
    (iv vv : Value) (arr : List Value) (i : Int)
    (hie : evaluate cfg fuel ie st = .ok iv st1)
    (hve : evaluate cfg fuel ve st1 = .ok vv st2)
    (hb : b ≠ a)
    (ha : lookup_stack a st2.env_stack = some (.array arr))
    (hiv : iv = .number i) (h0 : 0 ≤ i) (hlen : i.toNat < arr.length) :
    ∃ st', execute_stmt cfg (fuel + 1) (.AssignIndex a ie ve) st = .ok none st' ∧
      get_variable st' b = get_variable st2 b ∧
      get_variable st' a = .array (arr.set i.toNat vv) ∧
      st'.functions = st2.functions ∧ st'.errors = st2.errors := by
  subst hiv
  have hupd := assign_index_update a i vv st2.env_stack arr ha h0 hlen
  refine ⟨{ st2 with env_stack := (assign_index_scopes a (.number i) vv st2.env_stack).1 },
    ?_, ?_, ?_, rfl, rfl⟩
  · rw [execute_stmt, hie]
    dsimp only
    rw [hve]
    dsimp only
    rw [hupd.1]
  · simp only [get_variable]
    rw [assign_index_frame a b (.number i) vv st2.env_stack hb]
  · simp only [get_variable]
    rw [hupd.2]
    rfl

/-- C6 amended: for an AssignIndex whose named binding exists and holds
an Array, an evaluated index that is not a Number, negative, or past
the end reports the matching error and leaves the state reached AFTER
evaluating the index and value expressions unchanged except for the
appended error tag (bindings, scopes and function table are equal).
The claim as frozen compared against the state BEFORE the statement,
which the side effects of evaluating the index expression can change —
see the counterexample. -/
theorem C6_amended_error_path
    (cfg : Cfg) (fuel : Nat) (a : String) (ie ve : Expr) (st st1 st2 : St)
    (iv vv : Value) (arr : List Value)
    (hie : evaluate cfg fuel ie st = .ok iv st1)
    (hve : evaluate cfg fuel ve st1 = .ok vv st2)
    (ha : lookup_stack a st2.env_stack = some (.array arr))
    (hbad : ∀ i : Int, iv = .number i → ¬(0 ≤ i ∧ i.toNat < arr.length)) :
    ∃ t, execute_stmt cfg (fuel + 1) (.AssignIndex a ie ve) st = .ok none (report st2 t) ∧
      ((∃ i, iv = .number i ∧ t = .indexOutOfRange i) ∨
        ((∀ i : Int, iv ≠ .number i) ∧ t = .indexNotNumber)) ∧
      (report st2 t).env_stack = st2.env_stack ∧
      (report st2 t).functions = st2.functions ∧
      (report st2 t).errors = st2.errors ++ [t] := by
  have hb := assign_index_bad a iv vv st2.env_stack arr ha hbad
  rcases hb.2 with ⟨i, hi, h2⟩ | ⟨hn, h2⟩
  · refine ⟨.indexOutOfRange i, ?_, Or.inl ⟨i, hi, rfl⟩, rfl, rfl, rfl⟩
    rw [execute_stmt, hie]
    dsimp only
    rw [hve]
    dsimp only
    rw [h2, hb.1]
  · refine ⟨.indexNotNumber, ?_, Or.inr ⟨hn, rfl⟩, rfl, rfl, rfl⟩
    rw [execute_stmt, hie]
    dsimp only
    rw [hve]
    dsimp only
    rw [h2, hb.1]

/-- C10 amended: an AssignIndex whose target name is bound in no scope
reports the variable-not-found error, creates no binding (the name is
still unbound afterwards), and leaves the state reached AFTER
evaluating the index and value expressions unchanged except for the
appended error tag — unlike Assign, which inserts a binding for an
unbound name into the innermost scope.  (As with C6, the claim as
frozen compared against the state before the whole statement, which
expression side effects can change — see the counterexample.) -/
theorem C10_amended_unbound :
    (∀ (cfg : Cfg) (fuel : Nat) (a : String) (ie ve : Expr) (st st1 st2 : St) (iv vv : Value),
      evaluate cfg fuel ie st = .ok iv st1 →
      evaluate cfg fuel ve st1 = .ok vv st2 →
      lookup_stack a st2.env_stack = none →
      execute_stmt cfg (fuel + 1) (.AssignIndex a ie ve) st =
        .ok none (report st2 (.varNotFound a)) ∧
      lookup_stack a (report st2 (.varNotFound a)).env_stack = none) ∧
    (∀ (cfg : Cfg) (fuel : Nat) (nm : String) (e : Expr) (st st1 : St) (v : Value)
        (sc : ScopeT) (rest : List ScopeT),
      evaluate cfg fuel e st = .ok v st1 →
      st1.env_stack = sc :: rest →
      lookup_stack nm st1.env_stack = none →
      execute_stmt cfg (fuel + 1) (.Assign nm e) st =
        .ok none { st1 with env_stack := alInsert nm v sc :: rest }) := by
  constructor
  · intro cfg fuel a ie ve st st1 st2 iv vv hie hve hnone
    have hu := assign_index_unbound a iv vv st2.env_stack hnone
    constructor
    · rw [execute_stmt, hie]
      dsimp only
      rw [hve]
      dsimp only
      rw [hu]
    · exact hnone
  · intro cfg fuel nm e st st1 v sc rest he hstk hnone
    rw [execute_stmt, he]
    dsimp only
    rw [set_variable, set_in_stack_none nm v st1.env_stack hnone]
    rw [hstk]





/-- C8: short-circuit evaluation of `&&` and `||`.  `L && R` evaluates
`L` first and, when `L` is falsy, yields `Bool(false)` in the state left
by `L` — for EVERY right operand `R`, which is therefore not evaluated
(no side effects, no divergence); when `L` is truthy the result is
`Bool(truthy R)`.  Dually, `L || R` yields `Bool(true)` without touching
`R` when `L` is truthy, else `Bool(truthy R)`. -/
theorem C8_short_circuit :
    (∀ (cfg : Cfg) (fuel : Nat) (L R : Expr) (st : St) (lv : Value) (st1 : St),
      evaluate cfg fuel L st = .ok lv st1 → is_truthy lv = false →
      evaluate cfg (fuel + 1) (.BinaryOp L "&&" R) st = .ok (.bool false) st1) ∧
    (∀ (cfg : Cfg) (fuel : Nat) (L R : Expr) (st : St) (lv rv : Value) (st1 st2 : St),
      evaluate cfg fuel L st = .ok lv st1 → is_truthy lv = true →
      evaluate cfg fuel R st1 = .ok rv st2 →
      evaluate cfg (fuel + 1) (.BinaryOp L "&&" R) st = .ok (.bool (is_truthy rv)) st2) ∧
    (∀ (cfg : Cfg) (fuel : Nat) (L R : Expr) (st : St) (lv : Value) (st1 : St),
      evaluate cfg fuel L st = .ok lv st1 → is_truthy lv = true →
      evaluate cfg (fuel + 1) (.BinaryOp L "||" R) st = .ok (.bool true) st1) ∧
    (∀ (cfg : Cfg) (fuel : Nat) (L R : Expr) (st : St) (lv rv : Value) (st1 st2 : St),
      evaluate cfg fuel L st = .ok lv st1 → is_truthy lv = false →
      evaluate cfg fuel R st1 = .ok rv st2 →
      evaluate cfg (fuel + 1) (.BinaryOp L "||" R) st = .ok (.bool (is_truthy rv)) st2) := by
  refine ⟨?_, ?_, ?_, ?_⟩
  · intro cfg fuel L R st lv st1 hL h
    rw [evaluate, if_pos rfl, hL]
    simp [h]
  · intro cfg fuel L R st lv rv st1 st2 hL h hR
    rw [evaluate, if_pos rfl, hL]
    simp [h, hR]
  · intro cfg fuel L R st lv st1 hL h
    rw [evaluate, if_neg (by decide), if_pos rfl, hL]
    simp [h]
  · intro cfg fuel L R st lv rv st1 st2 hL h hR
    rw [evaluate, if_neg (by decide), if_pos rfl, hL]
    simp [h, hR]

/-- C8 witness: `0 && f()` and `1 || f()` decide without evaluating the
call (the function table is empty, so evaluating `f()` would have
reported an unknown-function error). -/
theorem C8_short_circuit_witness :
    evaluate cfgDnsFail 2 (.BinaryOp (.Number 0) "&&" (.Call "f" [])) (initSt []) =
      .ok (.bool false) (initSt []) ∧
    evaluate cfgDnsFail 2 (.BinaryOp (.Number 1) "||" (.Call "f" [])) (initSt []) =
      .ok (.bool true) (initSt []) :=
  ⟨C8_short_circuit.1 cfgDnsFail 1 (.Number 0) (.Call "f" []) (initSt []) (.number 0) (initSt []) rfl rfl,
   C8_short_circuit.2.2.1 cfgDnsFail 1 (.Number 1) (.Call "f" []) (initSt []) (.number 1) (initSt []) rfl rfl⟩

/-- C6 counterexample: `a[f()] = 0` where `a = [5]` and `f()` assigns
`x = 1` (an existing outer binding) and returns 99.  The binding `a`
exists and holds an array, the evaluated index 99 is out of range and
the error is reported — but the state after the statement differs from
the state before it: `x` went from 0 to 1.  So "every binding is the
same after the statement as before it" fails as stated. -/
theorem C6_counterexample :
    lookup_stack "a" stC6.env_stack = some (.array [.number 5]) ∧
    execute_stmt cfgDnsFail 10 stmtC6 stC6 = .ok none stC6' ∧
    stC6'.errors = [.indexOutOfRange 99] ∧
    get_variable stC6 "x" = .number 0 ∧
    get_variable stC6' "x" = .number 1 :=
  ⟨rfl, rfl, rfl, rfl, rfl⟩

/-- C10 counterexample: `a[f()] = 0` where `a` is unbound anywhere and
`f()` assigns `x = 1` (an existing outer binding).  The
variable-not-found error is reported and no binding for `a` is created,
but the state after the statement differs from the state before it:
`x` went from 0 to 1. -/
theorem C10_counterexample :
    lookup_stack "a" stC10.env_stack = none ∧
    execute_stmt cfgDnsFail 10 stmtC6 stC10 = .ok none stC10' ∧
    stC10'.errors = [.varNotFound "a"] ∧
    lookup_stack "a" stC10'.env_stack = none ∧
    get_variable stC10 "x" = .number 0 ∧
    get_variable stC10' "x" = .number 1 :=
  ⟨rfl, rfl, rfl, rfl, rfl, rfl⟩


/-- C5 witness: the spec scenario `a = [10,20,30]; b = a; a[1] = 99`
leaves `b` unchanged and updates `a`. -/
theorem C5_assign_index_frame_witness :
    ∃ st', execute_stmt cfgDnsFail 2 (.AssignIndex "a" (.Number 1) (.Number 99)) stC5 =
        .ok none st' ∧
      get_variable st' "b" = get_variable stC5 "b" ∧
      get_variable st' "a" = .array ([Value.number 10, .number 20, .number 30].set 1 (.number 99)) ∧
      st'.functions = stC5.functions ∧ st'.errors = stC5.errors :=
  C5_assign_index_frame cfgDnsFail 1 "a" "b" (.Number 1) (.Number 99) stC5 stC5 stC5
    (.number 1) (.number 99) [.number 10, .number 20, .number 30] 1
    rfl rfl (by decide) rfl rfl (by decide) (by decide)

/-- C6 amended, witness: `a[9] = 1` on `a = [5]` reports the
out-of-range error and changes nothing but the error channel. -/
theorem C6_amended_error_path_witness :
    ∃ t, execute_stmt cfgDnsFail 2 (.AssignIndex "a" (.Number 9) (.Number 1))
        (initSt [("a", .array [.number 5])]) =
        .ok none (report (initSt [("a", .array [.number 5])]) t) ∧
      ((∃ i, Value.number 9 = Value.number i ∧ t = .indexOutOfRange i) ∨
        ((∀ i : Int, Value.number 9 ≠ .number i) ∧ t = .indexNotNumber)) ∧
      (report (initSt [("a", .array [.number 5])]) t).env_stack =
        (initSt [("a", .array [.number 5])]).env_stack ∧
      (report (initSt [("a", .array [.number 5])]) t).functions =
        (initSt [("a", .array [.number 5])]).functions ∧
      (report (initSt [("a", .array [.number 5])]) t).errors =
        (initSt [("a", .array [.number 5])]).errors ++ [t] :=
  C6_amended_error_path cfgDnsFail 1 "a" (.Number 9) (.Number 1) (initSt [("a", .array [.number 5])])
    (initSt [("a", .array [.number 5])]) (initSt [("a", .array [.number 5])])
    (.number 9) (.number 1) [.number 5] rfl rfl rfl
    (by intro i hi h; cases hi; revert h; decide)

/-- C10 amended, witness: `q[0] = 1` with `q` unbound reports
variable-not-found and leaves `q` unbound, while `q = 7` creates the
binding in the innermost scope. -/
theorem C10_amended_unbound_witness :
    (execute_stmt cfgDnsFail 2 (.AssignIndex "q" (.Number 0) (.Number 1)) (initSt []) =
        .ok none (report (initSt []) (.varNotFound "q")) ∧
      lookup_stack "q" (report (initSt []) (.varNotFound "q")).env_stack = none) ∧
    execute_stmt cfgDnsFail 2 (.Assign "q" (.Number 7)) (initSt []) =
      .ok none { initSt [] with env_stack := alInsert "q" (.number 7) [] :: [] } :=
  ⟨C10_amended_unbound.1 cfgDnsFail 1 "q" (.Number 0) (.Number 1) (initSt []) (initSt []) (initSt [])
      (.number 0) (.number 1) rfl rfl rfl,
   C10_amended_unbound.2 cfgDnsFail 1 "q" (.Number 7) (initSt []) (initSt []) (.number 7) [] []
      rfl rfl rfl⟩



theorem frame_step_refl (pre post : List ScopeT) : frame_step pre post pre post := by
  refine ⟨rfl, ?_, ?_, fun v _ => ?_⟩ <;>
    { rw [List.forall₂_same]; intro x _; first
        | exact fun nm h => h
        | exact fun nm => rfl
        | rfl }

theorem EnvFrame.refl (stk : List ScopeT) : EnvFrame stk stk :=
  fun pre post h => ⟨pre, post, h, frame_step_refl pre post⟩

theorem EnvFrame.toNE {stk stk' : List ScopeT} (h : EnvFrame stk stk') :
    EnvFrameNE stk stk' := fun pre post _ hs => h pre post hs

theorem forall2_mem {α : Type} {r : α → α → Prop} {l l' : List α}
    (h : List.Forall₂ r l l') {x : α} (hx : x ∈ l) : ∃ y ∈ l', r x y := by
  induction l generalizing l' with
  | nil => cases hx
  | cons a as ih =>
      cases h with
      | cons hr htail =>
          rcases List.mem_cons.mp hx with rfl | hx'
          · exact ⟨_, List.mem_cons_self _ _, hr⟩
          · obtain ⟨y, hy, hry⟩ := ih htail hx'
            exact ⟨y, List.mem_cons_of_mem _ hy, hry⟩

theorem boundIn_mono {v : String} {pre pre' : List ScopeT}
    (hm : List.Forall₂ scope_dom_mono pre pre') (hb : boundIn v pre) : boundIn v pre' := by
  obtain ⟨sc, hsc, hv⟩ := hb
  obtain ⟨sc', hsc', hr⟩ := forall2_mem hm hsc
  exact ⟨sc', hsc', hr v hv⟩

theorem forall2_trans {α : Type} {r : α → α → Prop} {a b c : List α}
    (hr : ∀ x y z, r x y → r y z → r x z)
    (h1 : List.Forall₂ r a b) (h2 : List.Forall₂ r b c) : List.Forall₂ r a c := by
  induction h1 generalizing c with
  | nil => cases h2; exact .nil
  | cons hxy _ ih =>
      cases h2 with
      | cons hyz h2' => exact .cons (hr _ _ _ hxy hyz) (ih h2')

theorem frame_step_trans {pre post p2 q2 p3 q3 : List ScopeT}
    (h1 : frame_step pre post p2 q2) (h2 : frame_step p2 q2 p3 q3) :
    frame_step pre post p3 q3 := by
  obtain ⟨hl1, hm1, he1, hb1⟩ := h1
  obtain ⟨hl2, hm2, he2, hb2⟩ := h2
  refine ⟨hl2.trans hl1, ?_, ?_, ?_⟩
  · exact forall2_trans (fun x y z hxy hyz => fun nm h => hyz nm (hxy nm h)) hm1 hm2
  · exact forall2_trans (fun x y z hxy hyz => fun nm => (hyz nm).trans (hxy nm)) he1 he2
  · intro v hv
    have hv2 : boundIn v p2 := boundIn_mono hm1 hv
    exact forall2_trans (fun x y z hxy hyz => hyz.trans hxy) (hb1 v hv) (hb2 v hv2)

theorem EnvFrame.comp {a b c : List ScopeT} (h1 : EnvFrame a b) (h2 : EnvFrame b c) :
    EnvFrame a c := by
  intro pre post hs
  obtain ⟨p2, q2, hb, hst⟩ := h1 pre post hs
  obtain ⟨p3, q3, hc, hst2⟩ := h2 p2 q2 hb
  exact ⟨p3, q3, hc, frame_step_trans hst hst2⟩

theorem EnvFrame.comp_ne {a b c : List ScopeT} (h1 : EnvFrame a b) (h2 : EnvFrameNE b c) :
    EnvFrameNE a c := by
  intro pre post hne hs
  obtain ⟨p2, q2, hb, hst⟩ := h1 pre post hs
  have hp2 : p2 ≠ [] := by
    intro h
    apply hne
    have := hst.1
    rw [h] at this
    exact List.length_eq_zero.mp this.symm
  obtain ⟨p3, q3, hc, hst2⟩ := h2 p2 q2 hp2 hb
  exact ⟨p3, q3, hc, frame_step_trans hst hst2⟩

theorem EnvFrameNE.compNE {a b c : List ScopeT} (h1 : EnvFrameNE a b) (h2 : EnvFrameNE b c) :
    EnvFrameNE a c := by
  intro pre post hne hs
  obtain ⟨p2, q2, hb, hst⟩ := h1 pre post hne hs
  have hp2 : p2 ≠ [] := by
    intro h
    apply hne
    have := hst.1
    rw [h] at this
    exact List.length_eq_zero.mp this.symm
  obtain ⟨p3, q3, hc, hst2⟩ := h2 p2 q2 hp2 hb
  exact ⟨p3, q3, hc, frame_step_trans hst hst2⟩

theorem EnvFrameNE.comp_e {a b c : List ScopeT} (h1 : EnvFrameNE a b) (h2 : EnvFrame b c) :
    EnvFrameNE a c := by
  intro pre post hne hs
  obtain ⟨p2, q2, hb, hst⟩ := h1 pre post hne hs
  obtain ⟨p3, q3, hc, hst2⟩ := h2 p2 q2 hb
  exact ⟨p3, q3, hc, frame_step_trans hst hst2⟩

/-- The push/execute/pop combination: if the body preserves the frame
with the pushed scope in `pre`, the combination (with the top of the
result stack popped) preserves the frame of the original stack — with
`pre` possibly empty. -/
theorem frame_push_pop {sc : ScopeT} {stk stk2 : List ScopeT}
    (h : EnvFrameNE (sc :: stk) stk2) : EnvFrame stk stk2.tail := by
  intro pre post hs
  obtain ⟨p2, q2, hb, hst⟩ := h (sc :: pre) post (by simp) (by simp [hs])
  obtain ⟨hl, hm, he, hbind⟩ := hst
  cases p2 with
  | nil => simp at hl
  | cons hd tl =>
      refine ⟨tl, q2, by simp [hb], by simpa using hl, ?_, he, ?_⟩
      · cases hm with
        | cons _ h' => exact h'
      · intro v hv
        obtain ⟨sc', hsc', hv'⟩ := hv
        exact hbind v ⟨sc', List.mem_cons_of_mem _ hsc', hv'⟩



theorem alInsert_dom_mono {nm : String} (v : Value) (sc : ScopeT) :
    scope_dom_mono sc (alInsert nm v sc) := by
  intro nm' h
  rw [alookup_alInsert]
  by_cases h' : nm' = nm <;> simp [h', h]

theorem alInsert_dom_eq {nm : String} (v : Value) (sc : ScopeT)
    (h : (alookup nm sc).isSome = true) : scope_dom_eq sc (alInsert nm v sc) := by
  intro nm'
  rw [alookup_alInsert]
  by_cases h' : nm' = nm <;> simp [h', h]

theorem alInsert_bind_eq {nm v' : String} (v : Value) (sc : ScopeT) (h : v' ≠ nm) :
    bind_eq v' sc (alInsert nm v sc) := by
  rw [bind_eq, alookup_alInsert, if_neg h]

/-- `set_in_stack` when the name is bound in the prefix: only the
prefix changes, its length is kept and its domains only grow. -/
theorem set_in_stack_found_pre (nm : String) (v : Value) :
    ∀ pre post : List ScopeT, boundIn nm pre →
    ∃ pre2, set_in_stack nm v (pre ++ post) = some (pre2 ++ post) ∧
      pre2.length = pre.length ∧ List.Forall₂ scope_dom_mono pre pre2 := by
  intro pre
  induction pre with
  | nil => intro post h; obtain ⟨sc, hm, _⟩ := h; cases hm
  | cons sc rest ih =>
      intro post hb
      by_cases hsc : (alookup nm sc).isSome = true
      · refine ⟨alInsert nm v sc :: rest, ?_, by simp, ?_⟩
        · simp [set_in_stack, hsc]
        · exact .cons (alInsert_dom_mono v sc)
            (by rw [List.forall₂_same]; exact fun x _ nm' h => h)
      · have hb' : boundIn nm rest := by
          obtain ⟨sc', hm, hv⟩ := hb
          rcases List.mem_cons.mp hm with rfl | hm'
          · exact absurd hv hsc
          · exact ⟨sc', hm', hv⟩
        obtain ⟨pre2, heq, hlen, hmono⟩ := ih post hb'
        refine ⟨sc :: pre2, ?_, by simp [hlen], .cons (fun nm' h => h) hmono⟩
        simp [set_in_stack, hsc, heq]



/-- `set_in_stack` passes over a prefix that does not bind the name. -/
theorem set_in_stack_skip_pre (nm : String) (v : Value) :
    ∀ pre post : List ScopeT, ¬ boundIn nm pre →
    set_in_stack nm v (pre ++ post) =
      (set_in_stack nm v post).map (fun post2 => pre ++ post2) := by
  intro pre
  induction pre with
  | nil => intro post _; cases h : set_in_stack nm v post <;> simp [h]
  | cons sc rest ih =>
      intro post hnb
      have hsc : ¬ (alookup nm sc).isSome = true :=
        fun h => hnb ⟨sc, List.mem_cons_self _ _, h⟩
      have hrest : ¬ boundIn nm rest := by
        intro ⟨sc', hm, hv⟩
        exact hnb ⟨sc', List.mem_cons_of_mem _ hm, hv⟩
      rw [List.cons_append, set_in_stack, if_neg hsc, ih post hrest]
      cases h : set_in_stack nm v post <;> simp [h]

/-- A successful `set_in_stack` keeps every scope domain and, for any
other name, every binding. -/
theorem set_in_stack_post (nm : String) (v : Value) :
    ∀ stk stk2 : List ScopeT, set_in_stack nm v stk = some stk2 →
    stk2.length = stk.length ∧ List.Forall₂ scope_dom_eq stk stk2 ∧
      ∀ v', v' ≠ nm → List.Forall₂ (bind_eq v') stk stk2 := by
  intro stk
  induction stk with
  | nil => intro stk2 h; cases h
  | cons sc rest ih =>
      intro stk2 h
      by_cases hsc : (alookup nm sc).isSome = true
      · rw [set_in_stack, if_pos hsc] at h
        cases h
        refine ⟨by simp, .cons (alInsert_dom_eq v sc hsc)
            (by rw [List.forall₂_same]; exact fun x _ nm' => rfl), ?_⟩
        intro v' hv'
        exact .cons (alInsert_bind_eq v sc hv')
          (by rw [List.forall₂_same]; exact fun x _ => rfl)
      · rw [set_in_stack, if_neg hsc] at h
        cases hr : set_in_stack nm v rest with
        | none => rw [hr] at h; cases h
        | some rest2 =>
            rw [hr] at h
            cases h
            obtain ⟨hlen, hde, hbe⟩ := ih rest2 hr
            refine ⟨by simp [hlen], .cons (fun nm' => rfl) hde, ?_⟩
            intro v' hv'
            exact .cons rfl (hbe v' hv')

/-- The frame property of `set_variable` (statement-level: the split
prefix must be nonempty so that a fresh-name insert lands in it). -/
theorem set_variable_frame (nm : String) (v : Value) (st : St) :
    EnvFrameNE st.env_stack (set_variable st nm v).env_stack := by
  intro pre post hne hs
  by_cases hpre : boundIn nm pre
  · obtain ⟨pre2, heq, hlen, hmono⟩ := set_in_stack_found_pre nm v pre post hpre
    rw [set_variable, hs, heq]
    exact ⟨pre2, post, rfl, hlen, hmono, by rw [List.forall₂_same]; exact fun x _ nm' => rfl,
      fun v' _ => by rw [List.forall₂_same]; exact fun x _ => rfl⟩
  · rw [set_variable, hs, set_in_stack_skip_pre nm v pre post hpre]
    cases hset : set_in_stack nm v post with
    | some post2 =>
        obtain ⟨hlen, hde, hbe⟩ := set_in_stack_post nm v post post2 hset
        refine ⟨pre, post2, rfl, rfl,
          by rw [List.forall₂_same]; exact fun x _ nm' h => h, hde, ?_⟩
        intro v' hv'
        refine hbe v' ?_
        intro h
        subst h
        exact hpre hv'
    | none =>
        cases pre with
        | nil => exact absurd rfl hne
        | cons hd tl =>
            refine ⟨alInsert nm v hd :: tl, post, by simp, by simp, ?_, ?_, ?_⟩
            · exact .cons (alInsert_dom_mono v hd)
                (by rw [List.forall₂_same]; exact fun x _ nm' h => h)
            · rw [List.forall₂_same]; exact fun x _ nm' => rfl
            · intro v' _
              rw [List.forall₂_same]; exact fun x _ => rfl



/-- The scope that `assign_index_scopes` leaves at the position of the
found binding: same domains always, other names untouched. -/
theorem assign_index_found_scope (nm : String) (iv vv : Value) (sc : ScopeT)
    (hsc : (alookup nm sc).isSome = true) :
    ∀ post : List ScopeT,
    ∃ sc2, (assign_index_scopes nm iv vv (sc :: post)).1 = sc2 :: post ∧
      scope_dom_eq sc sc2 ∧ ∀ v', v' ≠ nm → bind_eq v' sc sc2 := by
  intro post
  obtain ⟨val, hval⟩ := Option.isSome_iff_exists.mp hsc
  cases val with
  | array elems =>
      cases iv with
      | number idx =>
          by_cases hr : 0 ≤ idx ∧ idx.toNat < elems.length
          · refine ⟨alInsert nm (.array (elems.set idx.toNat vv)) sc, ?_, ?_, ?_⟩
            · simp [assign_index_scopes, hval, hr]
            · exact alInsert_dom_eq _ sc hsc
            · exact fun v' hv' => alInsert_bind_eq _ sc hv'
          · exact ⟨sc, by simp [assign_index_scopes, hval, hr], fun nm' => rfl,
              fun v' _ => rfl⟩
      | str s => exact ⟨sc, by simp [assign_index_scopes, hval], fun nm' => rfl, fun v' _ => rfl⟩
      | bool b => exact ⟨sc, by simp [assign_index_scopes, hval], fun nm' => rfl, fun v' _ => rfl⟩
      | array a => exact ⟨sc, by simp [assign_index_scopes, hval], fun nm' => rfl, fun v' _ => rfl⟩
  | number n => exact ⟨sc, by simp [assign_index_scopes, hval], fun nm' => rfl, fun v' _ => rfl⟩
  | str s => exact ⟨sc, by simp [assign_index_scopes, hval], fun nm' => rfl, fun v' _ => rfl⟩
  | bool b => exact ⟨sc, by simp [assign_index_scopes, hval], fun nm' => rfl, fun v' _ => rfl⟩

/-- `assign_index_scopes` passes over scopes that do not bind the name. -/
theorem assign_index_skip_pre (nm : String) (iv vv : Value) :
    ∀ pre post : List ScopeT, ¬ boundIn nm pre →
    (assign_index_scopes nm iv vv (pre ++ post)).1 =
      pre ++ (assign_index_scopes nm iv vv post).1 := by
  intro pre
  induction pre with
  | nil => intro post _; rfl
  | cons sc rest ih =>
      intro post hnb
      have hsc : alookup nm sc = none := by
        cases h : alookup nm sc with
        | none => rfl
        | some v => exact absurd ⟨sc, List.mem_cons_self _ _, by simp [h]⟩ hnb
      have hrest : ¬ boundIn nm rest := by
        intro ⟨sc', hm, hv⟩
        exact hnb ⟨sc', List.mem_cons_of_mem _ hm, hv⟩
      rw [List.cons_append, assign_index_scopes, hsc]
      simp [ih post hrest]

/-- The result stack of `assign_index_scopes`: domains are always kept
exactly, and bindings of every other name are untouched. -/
theorem assign_index_post (nm : String) (iv vv : Value) :
    ∀ stk : List ScopeT,
    (assign_index_scopes nm iv vv stk).1.length = stk.length ∧
    List.Forall₂ scope_dom_eq stk (assign_index_scopes nm iv vv stk).1 ∧
      ∀ v', v' ≠ nm → List.Forall₂ (bind_eq v') stk (assign_index_scopes nm iv vv stk).1 := by
  intro stk
  induction stk with
  | nil => exact ⟨rfl, .nil, fun v' _ => .nil⟩
  | cons sc rest ih =>
      by_cases hsc : (alookup nm sc).isSome = true
      · obtain ⟨sc2, heq, hde, hbe⟩ := assign_index_found_scope nm iv vv sc hsc rest
        rw [heq]
        refine ⟨by simp, .cons hde (by rw [List.forall₂_same]; exact fun x _ nm' => rfl), ?_⟩
        intro v' hv'
        exact .cons (hbe v' hv') (by rw [List.forall₂_same]; exact fun x _ => rfl)
      · have hn : alookup nm sc = none := by
          cases h : alookup nm sc with
          | none => rfl
          | some v => exact absurd (by simp [h]) hsc
        have heq : (assign_index_scopes nm iv vv (sc :: rest)).1 =
            sc :: (assign_index_scopes nm iv vv rest).1 := by
          rw [assign_index_scopes, hn]
        rw [heq]
        obtain ⟨hlen, hde, hbe⟩ := ih
        exact ⟨by simp [hlen], .cons (fun nm' => rfl) hde,
          fun v' hv' => .cons rfl (hbe v' hv')⟩

/-- `assign_index_scopes` when the name is bound in the prefix: only
the prefix changes, keeping its length and domains. -/
theorem assign_index_found_pre (nm : String) (iv vv : Value) :
    ∀ pre post : List ScopeT, boundIn nm pre →
    ∃ pre2, (assign_index_scopes nm iv vv (pre ++ post)).1 = pre2 ++ post ∧
      pre2.length = pre.length ∧ List.Forall₂ scope_dom_mono pre pre2 := by
  intro pre
  induction pre with
  | nil => intro post h; obtain ⟨sc, hm, _⟩ := h; cases hm
  | cons sc rest ih =>
      intro post hb
      by_cases hsc : (alookup nm sc).isSome = true
      · obtain ⟨sc2, heq, hde, _⟩ := assign_index_found_scope nm iv vv sc hsc (rest ++ post)
        refine ⟨sc2 :: rest, by simpa using heq, by simp, ?_⟩
        exact .cons (fun nm' h => (hde nm').symm ▸ h)
          (by rw [List.forall₂_same]; exact fun x _ nm' h => h)
      · have hn : alookup nm sc = none := by
          cases h : alookup nm sc with
          | none => rfl
          | some v => exact absurd (by simp [h]) hsc
        have hb' : boundIn nm rest := by
          obtain ⟨sc', hm, hv⟩ := hb
          rcases List.mem_cons.mp hm with rfl | hm'
          · exact absurd hv hsc
          · exact ⟨sc', hm', hv⟩
        obtain ⟨pre2, heq, hlen, hmono⟩ := ih post hb'
        refine ⟨sc :: pre2, ?_, by simp [hlen], .cons (fun nm' h => h) hmono⟩
        rw [List.cons_append, assign_index_scopes, hn]
        simp [heq]

/-- The full frame property of the AssignIndex scope walk (the prefix
may be empty: no insert ever happens). -/
theorem assign_index_env_frame (nm : String) (iv vv : Value) (stk : List ScopeT) :
    EnvFrame stk (assign_index_scopes nm iv vv stk).1 := by
  intro pre post hs
  subst hs
  by_cases hpre : boundIn nm pre
  · obtain ⟨pre2, heq, hlen, hmono⟩ := assign_index_found_pre nm iv vv pre post hpre
    refine ⟨pre2, post, heq, hlen, hmono,
      by rw [List.forall₂_same]; exact fun x _ nm' => rfl, ?_⟩
    intro v' _
    rw [List.forall₂_same]; exact fun x _ => rfl
  · rw [assign_index_skip_pre nm iv vv pre post hpre]
    obtain ⟨hlen, hde, hbe⟩ := assign_index_post nm iv vv post
    refine ⟨pre, _, rfl, rfl, by rw [List.forall₂_same]; exact fun x _ nm' h => h, hde, ?_⟩
    intro v' hv'
    refine hbe v' ?_
    intro h
    subst h
    exact hpre hv'



set_option maxHeartbeats 1000000 in
theorem env_frame_main (cfg : Cfg) : ∀ n : Nat,
    (∀ e st r st', evaluate cfg n e st = .ok r st' → EnvFrame st.env_stack st'.env_stack) ∧
    (∀ es st r st', evalList cfg n es st = .ok r st' → EnvFrame st.env_stack st'.env_stack) ∧
    (∀ ss st r st', execute cfg n ss st = .ok r st' → EnvFrameNE st.env_stack st'.env_stack) ∧
    (∀ s st r st', execute_stmt cfg n s st = .ok r st' → EnvFrameNE st.env_stack st'.env_stack) ∧
    (∀ c b st r st', loopWhile cfg n c b st = .ok r st' → EnvFrameNE st.env_stack st'.env_stack) ∧
    (∀ v els b st r st', forIter cfg n v els b st = .ok r st' →
      EnvFrameNE st.env_stack st'.env_stack) := by
  intro n
  induction n with
  | zero =>
      refine ⟨?_, ?_, ?_, ?_, ?_, ?_⟩
      · intro e st r st' h; rw [evaluate] at h; exact Out.noConfusion h
      · intro es st r st' h; rw [evalList] at h; exact Out.noConfusion h
      · intro ss st r st' h; rw [execute] at h; exact Out.noConfusion h
      · intro s st r st' h; rw [execute_stmt] at h; exact Out.noConfusion h
      · intro c b st r st' h; rw [loopWhile] at h; exact Out.noConfusion h
      · intro v els b st r st' h; rw [forIter] at h; exact Out.noConfusion h
  | succ n ih =>
      obtain ⟨ihEval, ihList, ihExec, ihStmt, ihLoop, ihFor⟩ := ih
      refine ⟨?_, ?_, ?_, ?_, ?_, ?_⟩
      · -- evaluate
        intro e st r st' h
        cases e with
        | Number nval => rw [evaluate] at h; cases h; exact EnvFrame.refl _
        | StringLiteral sv => rw [evaluate] at h; cases h; exact EnvFrame.refl _
        | Identifier nm => rw [evaluate] at h; cases h; exact EnvFrame.refl _
        | Input =>
            rw [evaluate] at h
            cases hq : st.stdin_q with
            | nil => rw [hq] at h; try dsimp only at h
                     cases h; exact EnvFrame.refl _
            | cons line rest =>
                rw [hq] at h
                try dsimp only at h
                cases h
                exact EnvFrame.refl _
        | Array elems =>
            rw [evaluate] at h
            cases h1 : evalList cfg n elems st with
            | die er s0 => rw [h1] at h; exact Out.noConfusion h
            | ok vs s1 =>
                rw [h1] at h
                try dsimp only at h
                cases h
                exact ihList elems st vs st' h1
        | Index target index =>
            rw [evaluate] at h
            cases h1 : evaluate cfg n target st with
            | die er s0 => rw [h1] at h; exact Out.noConfusion h
            | ok tv s1 =>
                rw [h1] at h
                try dsimp only at h
                cases h2 : evaluate cfg n index s1 with
                | die er s0 => rw [h2] at h; exact Out.noConfusion h
                | ok iv s2 =>
                    rw [h2] at h
                    try dsimp only at h
                    have hf : EnvFrame st.env_stack s2.env_stack :=
                      (ihEval target st tv s1 h1).comp (ihEval index s1 iv s2 h2)
                    cases tv with
                    | array elems =>
                        cases iv with
                        | number idx =>
                            try dsimp only at h
                            by_cases hr : 0 ≤ idx ∧ idx.toNat < elems.length
                            · rw [if_pos hr] at h; cases h; exact hf
                            · rw [if_neg hr] at h; cases h; exact hf
                        | str sv => try dsimp only at h
                                    cases h; exact hf
                        | bool bv => try dsimp only at h
                                     cases h; exact hf
                        | array av => try dsimp only at h
                                      cases h; exact hf
                    | number nv => try dsimp only at h
                                   cases h; exact hf
                    | str sv => try dsimp only at h
                                cases h; exact hf
                    | bool bv => try dsimp only at h
                                 cases h; exact hf
        | UnaryOp op e1 =>
            rw [evaluate] at h
            cases h1 : evaluate cfg n e1 st with
            | die er s0 => rw [h1] at h; exact Out.noConfusion h
            | ok v s1 =>
                rw [h1] at h
                try dsimp only at h
                by_cases hop : op = "!"
                · rw [if_pos hop] at h; cases h; exact ihEval e1 st v st' h1
                · rw [if_neg hop] at h; cases h; exact ihEval e1 st v st' h1
        | BinaryOp l op rr =>
            rw [evaluate] at h
            by_cases hand : op = "&&"
            · rw [if_pos hand] at h
              cases h1 : evaluate cfg n l st with
              | die er s0 => rw [h1] at h; exact Out.noConfusion h
              | ok lv s1 =>
                  rw [h1] at h
                  try dsimp only at h
                  by_cases ht : is_truthy lv = true
                  · rw [if_neg (by simp [ht])] at h
                    cases h2 : evaluate cfg n rr s1 with
                    | die er s0 => rw [h2] at h; exact Out.noConfusion h
                    | ok rv s2 =>
                        rw [h2] at h
                        try dsimp only at h
                        cases h
                        exact (ihEval l st lv s1 h1).comp (ihEval rr s1 rv st' h2)
                  · rw [if_pos (by simp [ht])] at h
                    cases h
                    exact ihEval l st lv st' h1
            · rw [if_neg hand] at h
              by_cases hor : op = "||"
              · rw [if_pos hor] at h
                cases h1 : evaluate cfg n l st with
                | die er s0 => rw [h1] at h; exact Out.noConfusion h
                | ok lv s1 =>
                    rw [h1] at h
                    try dsimp only at h
                    by_cases ht : is_truthy lv = true
                    · rw [if_pos ht] at h
                      cases h
                      exact ihEval l st lv st' h1
                    · rw [if_neg ht] at h
                      cases h2 : evaluate cfg n rr s1 with
                      | die er s0 => rw [h2] at h; exact Out.noConfusion h
                      | ok rv s2 =>
                          rw [h2] at h
                          try dsimp only at h
                          cases h
                          exact (ihEval l st lv s1 h1).comp (ihEval rr s1 rv st' h2)
              · rw [if_neg hor] at h
                cases h1 : evaluate cfg n l st with
                | die er s0 => rw [h1] at h; exact Out.noConfusion h
                | ok lv s1 =>
                    rw [h1] at h
                    try dsimp only at h
                    cases h2 : evaluate cfg n rr s1 with
                    | die er s0 => rw [h2] at h; exact Out.noConfusion h
                    | ok rv s2 =>
                        rw [h2] at h
                        try dsimp only at h
                        cases hb : evaluate_binary lv op rv with
                        | none => rw [hb] at h; exact Out.noConfusion h
                        | some v =>
                            rw [hb] at h
                            try dsimp only at h
                            cases h
                            exact (ihEval l st lv s1 h1).comp (ihEval rr s1 rv st' h2)
        | Call nm args =>
            rw [evaluate] at h
            cases h1 : evalList cfg n args st with
            | die er s0 => rw [h1] at h; exact Out.noConfusion h
            | ok argv s1 =>
                rw [h1] at h
                try dsimp only at h
                have hframe : EnvFrame st.env_stack s1.env_stack := ihList args st argv s1 h1
                by_cases hn0 : nm = "son"
                · rw [if_pos hn0] at h
                  split at h <;> (cases h; exact hframe)
                · rw [if_neg hn0] at h
                  by_cases hn1 : nm = "matn"
                  · rw [if_pos hn1] at h
                    split at h <;> (cases h; exact hframe)
                  · rw [if_neg hn1] at h
                    by_cases hn2 : nm = "turi"
                    · rw [if_pos hn2] at h
                      split at h <;> (cases h; exact hframe)
                    · rw [if_neg hn2] at h
                      by_cases hn3 : nm = "uzunlik"
                      · rw [if_pos hn3] at h
                        split at h <;> (cases h; exact hframe)
                      · rw [if_neg hn3] at h
                        by_cases hn4 : nm = "qosh"
                        · rw [if_pos hn4] at h
                          by_cases hlen2 : 2 ≤ argv.length
                          · rw [if_pos hlen2] at h
                            cases hv0 : argv.getD 0 (.number 0) with
                            | array elems => rw [hv0] at h; cases h; exact hframe
                            | number x => rw [hv0] at h; cases h; exact hframe
                            | str x => rw [hv0] at h; cases h; exact hframe
                            | bool x => rw [hv0] at h; cases h; exact hframe
                          · rw [if_neg hlen2] at h
                            cases h; exact hframe
                        · rw [if_neg hn4] at h
                          by_cases hn5 : nm = "internet_ol"
                          · rw [if_pos hn5] at h
                            cases hh : argv.head? with
                            | none => rw [hh] at h; cases h; exact hframe
                            | some v =>
                                rw [hh] at h
                                try dsimp only at h
                                by_cases hsafe :
                                    is_safe_url cfg.parseUrl cfg.resolve v.display = true
                                · rw [if_neg (fun hc => hc hsafe)] at h
                                  cases hg : cfg.httpGet v.display with
                                  | netErr => rw [hg] at h; cases h; exact hframe
                                  | readErr => rw [hg] at h; cases h; exact hframe
                                  | body bs => rw [hg] at h; cases h; exact hframe
                                · rw [if_pos hsafe] at h
                                  cases h; exact hframe
                          · rw [if_neg hn5] at h
                            by_cases hn6 : nm = "internet_yoz"
                            · rw [if_pos hn6] at h
                              by_cases hlen2 : 2 ≤ argv.length
                              · rw [if_pos hlen2] at h
                                by_cases hsafe : is_safe_url cfg.parseUrl cfg.resolve
                                    (argv.getD 0 (.number 0)).display = true
                                · rw [if_neg (fun hc => hc hsafe)] at h
                                  cases hg : cfg.httpPost (argv.getD 0 (.number 0)).display
                                      (argv.getD 1 (.number 0)).display with
                                  | netErr => rw [hg] at h; cases h; exact hframe
                                  | readErr => rw [hg] at h; cases h; exact hframe
                                  | body bs => rw [hg] at h; cases h; exact hframe
                                · rw [if_pos hsafe] at h
                                  cases h; exact hframe
                              · rw [if_neg hlen2] at h
                                cases h; exact hframe
                            · rw [if_neg hn6] at h
                              cases hfn : alookup nm s1.functions with
                              | none =>
                                  rw [hfn] at h
                                  try dsimp only at h
                                  cases h
                                  exact hframe
                              | some fd =>
                                  obtain ⟨params, body⟩ := fd
                                  rw [hfn] at h
                                  try dsimp only at h
                                  cases h2 : execute cfg n body
                                      { s1 with env_stack := mk_call_scope params argv [] :: s1.env_stack } with
                                  | die er s0 => rw [h2] at h; exact Out.noConfusion h
                                  | ok rr s2 =>
                                      rw [h2] at h
                                      try dsimp only at h
                                      cases h
                                      exact hframe.comp (frame_push_pop (ihExec body _ rr s2 h2))
      · -- evalList
        intro es st r st' h
        cases es with
        | nil => rw [evalList] at h; cases h; exact EnvFrame.refl _
        | cons e es =>
            rw [evalList] at h
            cases h1 : evaluate cfg n e st with
            | die er s => rw [h1] at h; exact Out.noConfusion h
            | ok v s1 =>
                rw [h1] at h
                try dsimp only at h
                cases h2 : evalList cfg n es s1 with
                | die er s => rw [h2] at h; exact Out.noConfusion h
                | ok vs s2 =>
                    rw [h2] at h
                    try dsimp only at h
                    cases h
                    exact (ihEval e st v s1 h1).comp (ihList es s1 vs st' h2)
      · -- execute
        intro ss st r st' h
        cases ss with
        | nil => rw [execute] at h; cases h; exact (EnvFrame.refl _).toNE
        | cons s ss =>
            rw [execute] at h
            cases h1 : execute_stmt cfg n s st with
            | die er s0 => rw [h1] at h; exact Out.noConfusion h
            | ok r0 s1 =>
                rw [h1] at h
                try dsimp only at h
                cases r0 with
                | some v => try dsimp only at h
                            cases h; exact ihStmt s st (some v) st' h1
                | none =>
                    try dsimp only at h
                    exact (ihStmt s st none s1 h1).compNE (ihExec ss s1 r st' h)
      · -- execute_stmt
        intro s st r st' h
        cases s with
        | Print e =>
            rw [execute_stmt] at h
            cases h1 : evaluate cfg n e st with
            | die er s0 => rw [h1] at h; exact Out.noConfusion h
            | ok v s1 =>
                rw [h1] at h
                try dsimp only at h
                cases h
                exact (ihEval e st v s1 h1).toNE
        | If cond body =>
            rw [execute_stmt] at h
            cases h1 : evaluate cfg n cond st with
            | die er s0 => rw [h1] at h; exact Out.noConfusion h
            | ok v s1 =>
                rw [h1] at h
                try dsimp only at h
                by_cases ht : is_truthy v = true
                · rw [if_pos ht] at h
                  exact (ihEval cond st v s1 h1).comp_ne (ihExec body s1 r st' h)
                · rw [if_neg ht] at h
                  cases h
                  exact (ihEval cond st v st' h1).toNE
        | Loop cond body =>
            rw [execute_stmt] at h
            exact ihLoop cond body st r st' h
        | For var coll body =>
            rw [execute_stmt] at h
            cases h1 : evaluate cfg n coll st with
            | die er s0 => rw [h1] at h; exact Out.noConfusion h
            | ok v s1 =>
                rw [h1] at h
                try dsimp only at h
                cases v with
                | array elems =>
                    try dsimp only at h
                    exact (ihEval coll st (.array elems) s1 h1).comp_ne
                      (ihFor var elems body s1 r st' h)
                | number nn => try dsimp only at h
                               cases h; exact (ihEval coll st _ s1 h1).toNE
                | str ss => try dsimp only at h
                            cases h; exact (ihEval coll st _ s1 h1).toNE
                | bool bb => try dsimp only at h
                             cases h; exact (ihEval coll st _ s1 h1).toNE
        | Assign nm e =>
            rw [execute_stmt] at h
            cases h1 : evaluate cfg n e st with
            | die er s0 => rw [h1] at h; exact Out.noConfusion h
            | ok v s1 =>
                rw [h1] at h
                try dsimp only at h
                cases h
                exact (ihEval e st v s1 h1).comp_ne (set_variable_frame nm v s1)
        | AssignIndex nm ie ve =>
            rw [execute_stmt] at h
            cases h1 : evaluate cfg n ie st with
            | die er s0 => rw [h1] at h; exact Out.noConfusion h
            | ok iv s1 =>
                rw [h1] at h
                try dsimp only at h
                cases h2 : evaluate cfg n ve s1 with
                | die er s0 => rw [h2] at h; exact Out.noConfusion h
                | ok vv s2 =>
                    rw [h2] at h
                    try dsimp only at h
                    have hf : EnvFrame st.env_stack
                        (assign_index_scopes nm iv vv s2.env_stack).1 :=
                      ((ihEval ie st iv s1 h1).comp (ihEval ve s1 vv s2 h2)).comp
                        (assign_index_env_frame nm iv vv s2.env_stack)
                    cases hr : (assign_index_scopes nm iv vv s2.env_stack).2 with
                    | some t =>
                        rw [hr] at h
                        try dsimp only at h
                        cases h
                        exact hf.toNE
                    | none =>
                        rw [hr] at h
                        try dsimp only at h
                        cases h
                        exact hf.toNE
        | Function nm params body =>
            rw [execute_stmt] at h
            cases h
            exact (EnvFrame.refl _).toNE
        | Return e =>
            rw [execute_stmt] at h
            cases h1 : evaluate cfg n e st with
            | die er s0 => rw [h1] at h; exact Out.noConfusion h
            | ok v s1 =>
                rw [h1] at h
                try dsimp only at h
                cases h
                exact (ihEval e st v st' h1).toNE
        | Expr e =>
            rw [execute_stmt] at h
            cases h1 : evaluate cfg n e st with
            | die er s0 => rw [h1] at h; exact Out.noConfusion h
            | ok v s1 =>
                rw [h1] at h
                try dsimp only at h
                cases h
                exact (ihEval e st v st' h1).toNE
      · -- loopWhile
        intro c b st r st' h
        rw [loopWhile] at h
        cases h1 : evaluate cfg n c st with
        | die er s0 => rw [h1] at h; exact Out.noConfusion h
        | ok v s1 =>
            rw [h1] at h
            try dsimp only at h
            by_cases ht : is_truthy v = true
            · rw [if_pos ht] at h
              cases h2 : execute cfg n b s1 with
              | die er s0 => rw [h2] at h; exact Out.noConfusion h
              | ok r0 s2 =>
                  rw [h2] at h
                  try dsimp only at h
                  cases r0 with
                  | some rv =>
                      try dsimp only at h
                      cases h
                      exact (ihEval c st v s1 h1).comp_ne (ihExec b s1 (some rv) st' h2)
                  | none =>
                      try dsimp only at h
                      exact ((ihEval c st v s1 h1).comp_ne (ihExec b s1 none s2 h2)).compNE
                        (ihLoop c b s2 r st' h)
            · rw [if_neg ht] at h
              cases h
              exact (ihEval c st v st' h1).toNE
      · -- forIter
        intro v els b st r st' h
        cases els with
        | nil => rw [forIter] at h; cases h; exact (EnvFrame.refl _).toNE
        | cons el els =>
            rw [forIter] at h
            cases h1 : execute cfg n b { st with env_stack := [(v, el)] :: st.env_stack } with
            | die er s0 => rw [h1] at h; exact Out.noConfusion h
            | ok r0 s2 =>
                rw [h1] at h
                try dsimp only at h
                have hpp : EnvFrame st.env_stack s2.env_stack.tail :=
                  frame_push_pop (ihExec b _ r0 s2 h1)
                cases r0 with
                | some rv => dsimp only at h; cases h; exact hpp.toNE
                | none =>
                    try dsimp only at h
                    exact hpp.comp_ne (ihFor v els b _ r st' h)



theorem EnvFrame.length_eq {stk stk' : List ScopeT} (h : EnvFrame stk stk') :
    stk'.length = stk.length := by
  obtain ⟨pre', post', heq, hlen, _, hde, _⟩ := h [] stk rfl
  cases pre' with
  | cons a b => simp at hlen
  | nil => simpa [heq] using hde.length_eq.symm

theorem forall2_bind_lookup {v : String} {stk stk' : List ScopeT}
    (h : List.Forall₂ (bind_eq v) stk stk') :
    lookup_stack v stk' = lookup_stack v stk := by
  induction h with
  | nil => rfl
  | cons hb _ ih =>
      rw [lookup_stack, lookup_stack, hb]
      cases alookup v _ with
      | none => exact ih
      | some w => rfl

theorem forall2_domeq_lookup_none {nm : String} {stk stk' : List ScopeT}
    (h : List.Forall₂ scope_dom_eq stk stk') (hn : lookup_stack nm stk = none) :
    lookup_stack nm stk' = none := by
  induction stk generalizing stk' with
  | nil => cases h; rfl
  | cons sc rest ih =>
      cases stk' with
      | nil => cases h
      | cons sc2 rest2 =>
          cases h with
          | cons hd htl =>
              rw [lookup_stack] at hn
              cases h1 : alookup nm sc with
              | some w => rw [h1] at hn; exact absurd hn (by simp)
              | none =>
                  rw [h1] at hn
                  rw [lookup_stack]
                  cases h2 : alookup nm sc2 with
                  | some w =>
                      have h3 := hd nm
                      rw [h1, h2] at h3
                      exact absurd h3 (by simp)
                  | none => exact ih htl hn

/-- Per-element behaviour of the For loop on the stack below the loop
scope: scope domains are preserved exactly, and the binding of the loop
variable (shadowed by every iteration scope) is untouched. -/
theorem forIter_post (cfg : Cfg) : ∀ (n : Nat) (var : String) (els : List Value)
    (body : List Stmt) (st : St) (r : Option Value) (st' : St),
    forIter cfg n var els body st = .ok r st' →
    List.Forall₂ scope_dom_eq st.env_stack st'.env_stack ∧
    List.Forall₂ (bind_eq var) st.env_stack st'.env_stack := by
  intro n
  induction n with
  | zero =>
      intro var els body st r st' h
      rw [forIter] at h
      exact Out.noConfusion h
  | succ n ih =>
      intro var els body st r st' h
      cases els with
      | nil =>
          rw [forIter] at h
          cases h
          exact ⟨by rw [List.forall₂_same]; exact fun x _ nm => rfl,
            by rw [List.forall₂_same]; exact fun x _ => rfl⟩
      | cons el els =>
          rw [forIter] at h
          cases h1 : execute cfg n body { st with env_stack := [(var, el)] :: st.env_stack } with
          | die er s0 => rw [h1] at h; exact Out.noConfusion h
          | ok r0 s2 =>
              rw [h1] at h
              try dsimp only at h
              have hne := (env_frame_main cfg n).2.2.1 body _ r0 s2 h1
              obtain ⟨pre', post', heq, hlen, _, hde, hbind⟩ :=
                hne [[(var, el)]] st.env_stack (by simp) rfl
              have hvb : boundIn var [[(var, el)]] :=
                ⟨[(var, el)], List.mem_cons_self _ _, by simp [alookup]⟩
              have hbe := hbind var hvb
              cases pre' with
              | nil => simp at hlen
              | cons sc2 tl =>
                  cases tl with
                  | cons a b => simp at hlen
                  | nil =>
                      have htail : s2.env_stack.tail = post' := by rw [heq]; rfl
                      cases r0 with
                      | some rv =>
                          try dsimp only at h
                          cases h
                          exact ⟨by rw [htail]; exact hde, by rw [htail]; exact hbe⟩
                      | none =>
                          try dsimp only at h
                          obtain ⟨ih1, ih2⟩ := ih var els body _ r st' h
                          rw [htail] at *
                          refine ⟨forall2_trans ?_ hde ih1, forall2_trans ?_ hbe ih2⟩
                          · exact fun x y z hxy hyz nm => (hyz nm).trans (hxy nm)
                          · exact fun x y z hxy hyz => hyz.trans hxy



/-- C9: the For statement pushes a fresh scope per iteration and pops
it: (1) after the statement the scope stack has the same length as
before it; (2) relative to the state `st1` reached after evaluating the
collection, the loop leaves the binding of the loop variable unchanged
(assignments to it inside the body hit the per-iteration scope and do
not leak), and any name bound in no scope of `st1` — in particular one
first created inside the loop body, which lands in the per-iteration
scope (or a deeper one) — is still unbound after the loop and reads as
`Number(0)`; per-iteration freshness is literal in the source: the
pushed scope is exactly `{var ↦ element}`. -/
theorem C9_for_loop_scoping :
    (∀ (cfg : Cfg) (fuel : Nat) (var : String) (coll : Expr) (body : List Stmt)
        (st : St) (r : Option Value) (st' : St),
      execute_stmt cfg (fuel + 1) (.For var coll body) st = .ok r st' →
      st'.env_stack.length = st.env_stack.length) ∧
    (∀ (cfg : Cfg) (fuel : Nat) (var : String) (coll : Expr) (body : List Stmt)
        (st st1 : St) (elems : List Value) (r : Option Value) (st' : St),
      evaluate cfg fuel coll st = .ok (.array elems) st1 →
      execute_stmt cfg (fuel + 1) (.For var coll body) st = .ok r st' →
      get_variable st' var = get_variable st1 var ∧
      ∀ nm, lookup_stack nm st1.env_stack = none →
        lookup_stack nm st'.env_stack = none ∧ get_variable st' nm = .number 0) := by
  constructor
  · intro cfg fuel var coll body st r st' h
    rw [execute_stmt] at h
    cases h1 : evaluate cfg fuel coll st with
    | die er s0 => rw [h1] at h; exact Out.noConfusion h
    | ok v s1 =>
        rw [h1] at h
        try dsimp only at h
        have hf1 : s1.env_stack.length = st.env_stack.length :=
          ((env_frame_main cfg fuel).1 coll st v s1 h1).length_eq
        cases v with
        | array elems =>
            try dsimp only at h
            have hp := forIter_post cfg fuel var elems body s1 r st' h
            rw [hp.1.length_eq.symm, hf1]
        | number nn => try dsimp only at h
                       cases h; exact hf1
        | str ss => try dsimp only at h
                    cases h; exact hf1
        | bool bb => try dsimp only at h
                     cases h; exact hf1
  · intro cfg fuel var coll body st st1 elems r st' hcoll h
    rw [execute_stmt] at h
    rw [hcoll] at h
    try dsimp only at h
    have hp := forIter_post cfg fuel var elems body st1 r st' h
    refine ⟨?_, ?_⟩
    · rw [get_variable, get_variable, forall2_bind_lookup hp.2]
    · intro nm hn
      have h2 := forall2_domeq_lookup_none hp.1 hn
      exact ⟨h2, by rw [get_variable, h2]; rfl⟩

/-- C9 witness: running `uchun i ichida [1,2] { i = 9  x = 5 }` from
the empty initial state keeps the stack length, leaves `i` reading as
before the loop, and leaves `x` unbound (reading `Number(0)`). -/
theorem C9_for_loop_scoping_witness :
    stC9'.env_stack.length = (initSt []).env_stack.length ∧
    get_variable stC9' "i" = get_variable (initSt []) "i" ∧
    lookup_stack "x" stC9'.env_stack = none ∧
    get_variable stC9' "x" = .number 0 :=
  ⟨C9_for_loop_scoping.1 cfgDnsFail 9 "i" (.Array [.Number 1, .Number 2])
      [.Assign "i" (.Number 9), .Assign "x" (.Number 5)] (initSt []) none stC9' rfl,
   (C9_for_loop_scoping.2 cfgDnsFail 9 "i" (.Array [.Number 1, .Number 2])
      [.Assign "i" (.Number 9), .Assign "x" (.Number 5)] (initSt []) (initSt [])
      [.number 1, .number 2] none stC9' rfl rfl).1,
   ((C9_for_loop_scoping.2 cfgDnsFail 9 "i" (.Array [.Number 1, .Number 2])
      [.Assign "i" (.Number 9), .Assign "x" (.Number 5)] (initSt []) (initSt [])
      [.number 1, .number 2] none stC9' rfl rfl).2 "x" rfl).1,
   ((C9_for_loop_scoping.2 cfgDnsFail 9 "i" (.Array [.Number 1, .Number 2])
      [.Assign "i" (.Number 9), .Assign "x" (.Number 5)] (initSt []) (initSt [])
      [.number 1, .number 2] none stC9' rfl rfl).2 "x" rfl).2⟩


end Uzlang
